import Mathlib

set_option maxHeartbeats 1600000
set_option maxRecDepth 4096

/-!
# Verification of the response-formatting and size-bounding subsystem

Shallow embedding of the truncation/formatting subsystem of
`src/mcp_zammad/server.py` (functions `_escape_article_body`,
`_serialize_json`, `_find_max_items_for_limit`, `_truncate_json_response`,
`_truncate_text_response`, `truncate_response`, `_format_tickets_json`,
`_format_users_json`, `_format_organizations_json`, `_format_list_json`).

JSON documents are modelled by the inductive type `JValue`; Python's
`json.dumps` (with either `separators=(",", ":")` or `indent=2`, matching
`_serialize_json`) is embedded as `serVal`, and Python's `json.loads` as the
fuelled recursive-descent parser `parseVal` / `json_loads`.

Modelling notes (documented deviations from CPython, none of which are
exercised by the witnesses or counterexamples below):
* JSON numbers are modelled as integers (`Int`); float literals (`1.5`,
  `1e3`, `NaN`, `Infinity`) are not representable and fail to parse.
* `json.loads` keeps the *last* value of a duplicated object key; the model
  keeps the member list as parsed, so duplicated keys are preserved.
  Lookups (`dget`) read the first occurrence.  All concrete inputs used
  below have pairwise-distinct keys, where both semantics agree.
* A lone UTF-16 surrogate escape (a `\u` escape in the range D800-DFFF with
  no matching partner) decodes to a Python `str` surrogate; Lean `Char`
  cannot represent them, so the model rejects them.
* The density test `original_size > limit * 1.2` is modelled by the exact
  rational comparison `5 * original_size > 6 * limit`; CPython compares
  against the binary double closest to 1.2, which differs only when
  `original_size / limit` is within one double ulp of 6/5.
* Python's `str.lstrip()` strips every Unicode whitespace code point; the
  model strips the ASCII ones (plus U+0085/U+00A0), which agree with CPython
  on every input that subsequently parses as JSON, since JSON itself only
  allows space, tab, CR and LF.
-/

/-- A JSON value, as produced by `json.loads`.  Object members keep their
insertion order, like a Python `dict`. -/
inductive JValue where
  | null : JValue
  | bool (b : Bool) : JValue
  | int (n : Int) : JValue
  | str (s : String) : JValue
  | arr (xs : List JValue) : JValue
  | obj (ms : List (String × JValue)) : JValue

/-- A parsed JSON object: an insertion-ordered association list, the model of
a Python `dict` with string keys. -/
abbrev JObject := List (String × JValue)

/-! ## Python `dict` operations -/

/-- Python `d[k]` / `k in d`: first binding of `k` (Python dicts have unique
keys). -/
def dget (ms : JObject) (k : String) : Option JValue :=
  match ms with
  | [] => none
  | (k', v) :: rest => if k' = k then some v else dget rest k

/-- Python `d[k] = v`: replace in place if the key exists, else append (the
`dict` update-or-insert semantics). -/
def dset (ms : JObject) (k : String) (v : JValue) : JObject :=
  match ms with
  | [] => [(k, v)]
  | (k', v') :: rest => if k' = k then (k', v) :: rest else (k', v') :: dset rest k v

/-- Python `d.update(fields)`: `dset` each field in order (existing keys keep
their position and take the new value; new keys are appended in order). -/
def dictUpdate (ms : JObject) (fields : List (String × JValue)) : JObject :=
  fields.foldl (fun acc kv => dset acc kv.1 kv.2) ms

/-! ## The serializer: `_serialize_json` (`json.dumps`)

`use_compact = true` models `json.dumps(obj, separators=(",", ":"))`,
`use_compact = false` models `json.dumps(obj, indent=2)`.  `d` is the current
nesting depth (each level indents by two more spaces). -/

/-- Decimal digit character. -/
def digitCh (n : Nat) : Char := Char.ofNat (48 + n)

/-- Decimal digits of `n`, most significant first, prepended to `acc`.  The
first argument is fuel (structural, so the kernel can evaluate): any fuel
above the digit count gives the same digits, and `natChars` supplies `n+1`. -/
def natCharsGo : Nat → Nat → List Char → List Char
  | 0, _, acc => acc
  | fuel + 1, n, acc =>
      if n < 10 then digitCh n :: acc
      else natCharsGo fuel (n / 10) (digitCh (n % 10) :: acc)

/-- The decimal digits of a natural number, as Python prints it. -/
def natChars (n : Nat) : List Char := natCharsGo (n + 1) n []

/-- The decimal form of an integer, as Python prints it. -/
def intChars (i : Int) : List Char :=
  (if i < 0 then ['-'] else []) ++ natChars i.natAbs

/-- Lower-case hexadecimal digit character (CPython emits lower case). -/
def hexCh (n : Nat) : Char :=
  if n < 10 then Char.ofNat (48 + n) else Char.ofNat (87 + n)

/-- Four-digit hexadecimal form of `n < 0x10000`, as in a `\uXXXX` escape. -/
def hex4 (n : Nat) : List Char :=
  [hexCh (n / 4096 % 16), hexCh (n / 256 % 16), hexCh (n / 16 % 16), hexCh (n % 16)]

/-- One character of a JSON string, escaped exactly as CPython's
`json.encoder.py_encode_basestring_ascii` does (`ensure_ascii=True`):
the two-character escapes, printable ASCII kept verbatim, everything else as
`\uXXXX`, with surrogate pairs above the BMP. -/
def escChar (c : Char) : List Char :=
  if c = '"' then ['\\', '"']
  else if c = '\\' then ['\\', '\\']
  else if c = '\n' then ['\\', 'n']
  else if c = '\r' then ['\\', 'r']
  else if c = '\t' then ['\\', 't']
  else if c.toNat = 8 then ['\\', 'b']
  else if c.toNat = 12 then ['\\', 'f']
  else if 32 ≤ c.toNat ∧ c.toNat ≤ 126 then [c]
  else if c.toNat < 65536 then '\\' :: 'u' :: hex4 c.toNat
  else '\\' :: 'u' :: hex4 (55296 + (c.toNat - 65536) / 1024)
       ++ '\\' :: 'u' :: hex4 (56320 + (c.toNat - 65536) % 1024)

/-- A serialized JSON string: quote, escaped characters, quote. -/
def serStr (s : String) : List Char :=
  '"' :: (s.data.flatMap escChar ++ ['"'])

/-- The whitespace `json.dumps` emits after `{`, `[`, and `,` in `indent=2`
mode (a newline and the indentation of depth `d`); nothing in compact mode. -/
def nlind (uc : Bool) (d : Nat) : List Char :=
  if uc then [] else '\n' :: List.replicate (2 * d) ' '

/-- The key/value separator: `:` compact, `: ` indented. -/
def colonSep (uc : Bool) : List Char :=
  if uc then [':'] else [':', ' ']

mutual

/-- Serialization of a value at depth `d` (`uc` selects the density). -/
def serVal (uc : Bool) (d : Nat) : JValue → List Char
  | .null => "null".data
  | .bool true => "true".data
  | .bool false => "false".data
  | .int i => intChars i
  | .str s => serStr s
  | .arr [] => ['[', ']']
  | .arr (x :: xs) =>
      '[' :: (nlind uc (d + 1) ++ (serVal uc (d + 1) x ++ (serArrTail uc (d + 1) xs
        ++ (nlind uc d ++ [']']))))
  | .obj [] => ['{', '}']
  | .obj ((k, v) :: ms) =>
      '{' :: (nlind uc (d + 1) ++ (serStr k ++ (colonSep uc ++ (serVal uc (d + 1) v
        ++ (serObjTail uc (d + 1) ms ++ (nlind uc d ++ ['}']))))))
termination_by structural v => v

/-- The remaining elements of a non-empty array: `,` (plus indentation) then
the element, repeated. -/
def serArrTail (uc : Bool) (d : Nat) : List JValue → List Char
  | [] => []
  | x :: xs => ',' :: (nlind uc d ++ (serVal uc d x ++ serArrTail uc d xs))
termination_by structural v => v

/-- The remaining members of a non-empty object. -/
def serObjTail (uc : Bool) (d : Nat) : List (String × JValue) → List Char
  | [] => []
  | (k, v) :: ms =>
      ',' :: (nlind uc d ++ (serStr k ++ (colonSep uc ++ (serVal uc d v
        ++ serObjTail uc d ms))))
termination_by structural v => v

end

/-- Embedding of `_serialize_json(obj, use_compact)` from `server.py`:
compact separators when `use_compact`, otherwise `indent=2`. -/
def _serialize_json (v : JValue) (use_compact : Bool) : String :=
  ⟨serVal use_compact 0 v⟩

/-! ## The parser: `json.loads`

A fuelled recursive-descent parser over `List Char` with the grammar of
RFC 8259 restricted to integer numbers (see the modelling notes above).
Whitespace is the JSON whitespace set; strings understand the two-character
escapes, `\uXXXX` (combining surrogate pairs), and reject raw control
characters (CPython's `strict=True`). -/

/-- JSON whitespace (what `json.loads` skips between tokens). -/
def jsonWs (c : Char) : Bool :=
  c == ' ' || c == '\t' || c == '\n' || c == '\r'

/-- Drop leading JSON whitespace. -/
def skipWs : List Char → List Char
  | [] => []
  | c :: cs => if jsonWs c then skipWs cs else c :: cs

/-- Decimal digit test (by code point: 48-57). -/
def isDigitCh (c : Char) : Bool := decide (48 ≤ c.toNat ∧ c.toNat ≤ 57)

/-- Split a leading run of decimal digits from the rest. -/
def takeDigits : List Char → List Char × List Char
  | [] => ([], [])
  | c :: cs =>
      if isDigitCh c then
        let (ds, r) := takeDigits cs
        (c :: ds, r)
      else ([], c :: cs)

/-- The value of a digit run, most significant first. -/
def digitsToNat (ds : List Char) : Nat :=
  ds.foldl (fun a c => 10 * a + (c.toNat - 48)) 0

/-- JSON forbids a superfluous leading zero (`01`); a bare `0` is fine. -/
def noLeadingZero : List Char → Bool
  | '0' :: _ :: _ => false
  | _ => true

/-- Parse a JSON integer (an optional minus sign and a digit run). -/
def parseNum (cs : List Char) : Option (Int × List Char) :=
  match cs with
  | '-' :: rest =>
      match takeDigits rest with
      | ([], _) => none
      | (ds, r) => if noLeadingZero ds then some (-(digitsToNat ds : Int), r) else none
  | _ =>
      match takeDigits cs with
      | ([], _) => none
      | (ds, r) => if noLeadingZero ds then some ((digitsToNat ds : Int), r) else none

/-- The value of one hexadecimal digit character, if it is one. -/
def hexVal (c : Char) : Option Nat :=
  if '0' ≤ c && c ≤ '9' then some (c.toNat - 48)
  else if 'a' ≤ c && c ≤ 'f' then some (c.toNat - 87)
  else if 'A' ≤ c && c ≤ 'F' then some (c.toNat - 55)
  else none

/-- The value of a four-hex-digit group, if all four are hex digits. -/
def hexQuad (a b c d : Char) : Option Nat :=
  match hexVal a, hexVal b, hexVal c, hexVal d with
  | some va, some vb, some vc, some vd => some (((va * 16 + vb) * 16 + vc) * 16 + vd)
  | _, _, _, _ => none

/-- The two-character escapes `json.loads` understands. -/
def unesc (c : Char) : Option Char :=
  if c = '"' ∨ c = '\\' ∨ c = '/' then some c
  else if c = 'n' then some '\n'
  else if c = 't' then some '\t'
  else if c = 'r' then some '\r'
  else if c = 'b' then some (Char.ofNat 8)
  else if c = 'f' then some (Char.ofNat 12)
  else none

/-- Parse the low half of a surrogate pair after a high surrogate `n`:
another `\uXXXX` escape whose value is a low surrogate, combined into the
encoded character. -/
def parseSurr (n : Nat) : List Char → Option (Char × List Char)
  | '\\' :: 'u' :: e :: f :: g :: h :: rest2 =>
      match hexQuad e f g h with
      | some m =>
          if 56320 ≤ m ∧ m < 57344 then
            some (Char.ofNat (65536 + (n - 55296) * 1024 + (m - 56320)), rest2)
          else none
      | none => none
  | _ => none

/-- Parse the body of a string after its opening quote, accumulating parsed
characters in reverse.  Surrogate-pair `\uXXXX\uXXXX` escapes are combined;
a lone surrogate is rejected (see the modelling notes).  The fuel (first
argument) is structural so the kernel can evaluate; each step consumes at
least one input character, so any fuel above the input length suffices (the
parser supplies `length + 1`). -/
def parseStrAux : Nat → List Char → List Char → Option (List Char × List Char)
  | 0, _, _ => none
  | fuel + 1, acc, input =>
      match input with
      | '"' :: rest => some (acc.reverse, rest)
      | '\\' :: 'u' :: a :: b :: c :: d :: rest =>
          match hexQuad a b c d with
          | some n =>
              if 55296 ≤ n ∧ n < 56320 then
                match parseSurr n rest with
                | some (ch, rest2) => parseStrAux fuel (ch :: acc) rest2
                | none => none
              else if 56320 ≤ n ∧ n < 57344 then none
              else parseStrAux fuel (Char.ofNat n :: acc) rest
          | none => none
      | '\\' :: e :: rest =>
          match unesc e with
          | some ch => parseStrAux fuel (ch :: acc) rest
          | none => none
      | c :: rest => if c.toNat < 32 then none else parseStrAux fuel (c :: acc) rest
      | [] => none

mutual

/-- Parse one JSON value (after optional leading whitespace).  The fuel only
bounds the recursion; `json_loads` supplies enough for any input. -/
def parseVal : Nat → List Char → Option (JValue × List Char)
  | 0, _ => none
  | fuel + 1, cs =>
      match skipWs cs with
      | 'n' :: 'u' :: 'l' :: 'l' :: r => some (.null, r)
      | 't' :: 'r' :: 'u' :: 'e' :: r => some (.bool true, r)
      | 'f' :: 'a' :: 'l' :: 's' :: 'e' :: r => some (.bool false, r)
      | '"' :: r =>
          match parseStrAux (r.length + 1) [] r with
          | some (chars, r') => some (.str ⟨chars⟩, r')
          | none => none
      | '[' :: r =>
          match skipWs r with
          | ']' :: r' => some (.arr [], r')
          | other =>
              match parseItems fuel other with
              | some (xs, r'') => some (.arr xs, r'')
              | none => none
      | '{' :: r =>
          match skipWs r with
          | '}' :: r' => some (.obj [], r')
          | other =>
              match parseEntries fuel other with
              | some (ms, r'') => some (.obj ms, r'')
              | none => none
      | c :: rest =>
          if c == '-' || isDigitCh c then
            match parseNum (c :: rest) with
            | some (n, r') => some (.int n, r')
            | none => none
          else none
      | [] => none

/-- Parse one-or-more comma-separated array elements up to the closing `]`. -/
def parseItems : Nat → List Char → Option (List JValue × List Char)
  | 0, _ => none
  | fuel + 1, cs =>
      match parseVal fuel cs with
      | none => none
      | some (v, r) =>
          match skipWs r with
          | ',' :: r' =>
              match parseItems fuel r' with
              | some (vs, r'') => some (v :: vs, r'')
              | none => none
          | ']' :: r' => some ([v], r')
          | _ => none

/-- Parse one-or-more comma-separated object members up to the closing `}`. -/
def parseEntries : Nat → List Char → Option (List (String × JValue) × List Char)
  | 0, _ => none
  | fuel + 1, cs =>
      match skipWs cs with
      | '"' :: r =>
          match parseStrAux (r.length + 1) [] r with
          | none => none
          | some (kcs, r1) =>
              match skipWs r1 with
              | ':' :: r2 =>
                  match parseVal fuel r2 with
                  | none => none
                  | some (v, r3) =>
                      match skipWs r3 with
                      | ',' :: r4 =>
                          match parseEntries fuel r4 with
                          | some (ms, r5) => some ((⟨kcs⟩, v) :: ms, r5)
                          | none => none
                      | '}' :: r4 => some ([(⟨kcs⟩, v)], r4)
                      | _ => none
              | _ => none
      | _ => none

end

/-- Embedding of `json.loads(s)`: parse one value and require only
whitespace after it.  `none` models a raised `JSONDecodeError`. -/
def json_loads (s : String) : Option JValue :=
  match parseVal (s.data.length + 1) s.data with
  | some (v, rest) => if (skipWs rest).isEmpty then some v else none
  | none => none

/-! ## The truncator: `truncate_response` and its helpers -/

/-- CPython's `str.isspace()` code points (the ASCII ones plus the common
Unicode space separators), used by `str.lstrip()`. -/
def pyIsSpace (c : Char) : Bool :=
  ([9, 10, 11, 12, 13, 28, 29, 30, 31, 32, 133, 160, 5760, 8232, 8233,
    8239, 8287, 12288] : List Nat).contains c.toNat
  || (8192 ≤ c.toNat && c.toNat ≤ 8202)

/-- Test from `truncate_response`: `content.lstrip().startswith("{")`. -/
def jsonShaped (s : String) : Bool :=
  match s.data.dropWhile pyIsSpace with
  | '{' :: _ => true
  | _ => false

/-- The binary-search loop of `_find_max_items_for_limit`:
`while left < right: mid = (left+right+1)//2; left = mid if fits else (right = mid-1)`.
The fuel (first argument) is structural so the kernel can evaluate; the gap
`right - left` shrinks every iteration, so any fuel at or above the initial
gap computes the loop's exact result (`bsearchLoop` supplies the gap). -/
def bsearchGo (fits : Nat → Bool) : Nat → Nat → Nat → Nat
  | 0, left, _ => left
  | fuel + 1, left, right =>
      if left < right then
        if fits ((left + right + 1) / 2) then bsearchGo fits fuel ((left + right + 1) / 2) right
        else bsearchGo fits fuel left ((left + right + 1) / 2 - 1)
      else left

/-- The binary search of `_find_max_items_for_limit`, with the fuel paid. -/
def bsearchLoop (fits : Nat → Bool) (left right : Nat) : Nat :=
  bsearchGo fits (right - left) left right

/-- Embedding of `_find_max_items_for_limit(obj, original_items, limit,
use_compact)`: binary search for the largest prefix of `original_items`
that keeps the serialized object within `limit`. -/
def _find_max_items_for_limit (obj : JObject) (original_items : List JValue)
    (limit : Nat) (use_compact : Bool) : Nat :=
  bsearchLoop
    (fun mid =>
      decide ((serVal use_compact 0
        (.obj (dset obj "items" (.arr (original_items.take mid))))).length ≤ limit))
    0 original_items.length

/-- The `while obj["items"] and len(json_str) > limit: obj["items"].pop()`
loop at the end of `_truncate_json_response`, returning the final object
(whose `"items"` is the surviving prefix).  The fuel is structural so the
kernel can evaluate; one item is popped per iteration, so any fuel at or
above `len(items)` computes the loop's exact result (`popLoop` supplies
`len(items)`; at fuel 0 the list is empty and the loop stops anyway). -/
def popGo (obj : JObject) (limit : Nat) (uc : Bool) : Nat → List JValue → JObject
  | 0, its => dset obj "items" (.arr its)
  | fuel + 1, its =>
      if its.length ≠ 0 ∧ limit < (serVal uc 0 (.obj (dset obj "items" (.arr its)))).length then
        popGo obj limit uc fuel its.dropLast
      else dset obj "items" (.arr its)

def popLoop (obj : JObject) (its : List JValue) (limit : Nat) (uc : Bool) : JObject :=
  popGo obj limit uc its.length its

/-- The four `_meta` fields `_truncate_json_response` merges in, in `update`
order. -/
def metaFields (original_size limit : Nat) : List (String × JValue) :=
  [("truncated", .bool true),
   ("original_size", .int original_size),
   ("limit", .int limit),
   ("note", .str "Response truncated; reduce page/per_page or add filters.")]

/-- Embedding of `_truncate_json_response(content, obj, limit)`.  Returns
`none` where the Python function raises: `obj.setdefault("_meta", {})`
followed by `meta.update(...)` raises `AttributeError` when the object
already has a non-`dict` `"_meta"` member (the exception is caught by
`truncate_response`, which then falls back to text truncation). -/
def _truncate_json_response (content : String) (obj : JObject) (limit : Nat) :
    Option String :=
  let original_size := content.data.length
  let use_compact : Bool := decide (6 * limit < 5 * original_size)
  let obj1 :=
    match dget obj "items" with
    | some (.arr its) =>
        dset obj "items"
          (.arr (its.take (_find_max_items_for_limit obj its limit use_compact)))
    | _ => obj
  let finish : JObject → String := fun obj2 =>
    match dget obj2 "items" with
    | some (.arr its) => _serialize_json (.obj (popLoop obj2 its limit use_compact)) use_compact
    | _ => _serialize_json (.obj obj2) use_compact
  match dget obj1 "_meta" with
  | some (.obj m) =>
      some (finish (dset obj1 "_meta" (.obj (dictUpdate m (metaFields original_size limit)))))
  | some _ => none
  | none =>
      some (finish (obj1 ++ [("_meta", .obj (dictUpdate [] (metaFields original_size limit)))]))

/-- Embedding of `_truncate_text_response(content, limit)`: the first
`limit` characters followed by the warning block. -/
def _truncate_text_response (content : String) (limit : Nat) : String :=
  ⟨content.data.take limit
    ++ ("\n\n⚠️ **Response Truncated**\n".data
    ++ ("Response size (".data ++ (natChars content.data.length
    ++ (" chars) exceeds limit (".data ++ (natChars limit
    ++ (" chars).\n".data
    ++ "Use pagination (page/per_page) or add filters to see more results.".data))))))⟩

/-- Embedding of `truncate_response(content, limit)`: identity under the
limit; for JSON-shaped content that parses, JSON truncation (with text
fallback when it raises); otherwise text truncation. -/
def truncate_response (content : String) (limit : Nat) : String :=
  if content.data.length ≤ limit then content
  else if jsonShaped content then
    match json_loads content with
    | some (.obj o) =>
        match _truncate_json_response content o limit with
        | some s => s
        | none => _truncate_text_response content limit
    | _ => _truncate_text_response content limit
  else _truncate_text_response content limit

/-! ## The formatters -/

/-- The pagination envelope built by `_format_tickets_json`: `items` are the
`model_dump()` results of the page's tickets. -/
def _format_tickets_json_obj (tickets : List JValue) (total : Option Int)
    (page per_page : Int) : JObject :=
  [("items", .arr tickets),
   ("total", match total with | none => .null | some t => .int t),
   ("count", .int tickets.length),
   ("page", .int page),
   ("per_page", .int per_page),
   ("offset", .int ((page - 1) * per_page)),
   ("has_more", .bool ((tickets.length : Int) == per_page)),
   ("next_page", if (tickets.length : Int) == per_page then .int (page + 1) else .null),
   ("next_offset", if (tickets.length : Int) == per_page then .int (page * per_page) else .null),
   ("_meta", .obj [])]

/-- Embedding of `_format_tickets_json`: the envelope, `json.dumps`ed with
`indent=2`. -/
def _format_tickets_json (tickets : List JValue) (total : Option Int)
    (page per_page : Int) : String :=
  _serialize_json (.obj (_format_tickets_json_obj tickets total page per_page)) false

/-- The pagination envelope built by `_format_users_json` (same shape as the
tickets envelope). -/
def _format_users_json_obj (users : List JValue) (total : Option Int)
    (page per_page : Int) : JObject :=
  [("items", .arr users),
   ("total", match total with | none => .null | some t => .int t),
   ("count", .int users.length),
   ("page", .int page),
   ("per_page", .int per_page),
   ("offset", .int ((page - 1) * per_page)),
   ("has_more", .bool ((users.length : Int) == per_page)),
   ("next_page", if (users.length : Int) == per_page then .int (page + 1) else .null),
   ("next_offset", if (users.length : Int) == per_page then .int (page * per_page) else .null),
   ("_meta", .obj [])]

/-- Embedding of `_format_users_json`. -/
def _format_users_json (users : List JValue) (total : Option Int)
    (page per_page : Int) : String :=
  _serialize_json (.obj (_format_users_json_obj users total page per_page)) false

/-- The pagination envelope built by `_format_organizations_json` (same
shape as the tickets envelope). -/
def _format_organizations_json_obj (orgs : List JValue) (total : Option Int)
    (page per_page : Int) : JObject :=
  [("items", .arr orgs),
   ("total", match total with | none => .null | some t => .int t),
   ("count", .int orgs.length),
   ("page", .int page),
   ("per_page", .int per_page),
   ("offset", .int ((page - 1) * per_page)),
   ("has_more", .bool ((orgs.length : Int) == per_page)),
   ("next_page", if (orgs.length : Int) == per_page then .int (page + 1) else .null),
   ("next_offset", if (orgs.length : Int) == per_page then .int (page * per_page) else .null),
   ("_meta", .obj [])]

/-- Embedding of `_format_organizations_json`. -/
def _format_organizations_json (orgs : List JValue) (total : Option Int)
    (page per_page : Int) : String :=
  _serialize_json (.obj (_format_organizations_json_obj orgs total page per_page)) false

/-- A reference record as `_format_list_json` sees it: an `id` (the sort
key) and its `model_dump()` result. -/
structure RefItem where
  id : Int
  dump : JValue

/-- The sorted item list of `_format_list_json`: `sorted(items, key=lambda
x: x.id)` (Python's sort is stable; so is `List.mergeSort`). -/
def _format_list_sorted (items : List RefItem) : List RefItem :=
  items.mergeSort (fun a b => decide (a.id ≤ b.id))

/-- The envelope built by `_format_list_json`: full-page pagination over the
complete, id-sorted reference list. -/
def _format_list_json_obj (items : List RefItem) : JObject :=
  [("items", .arr ((_format_list_sorted items).map RefItem.dump)),
   ("total", .int (_format_list_sorted items).length),
   ("count", .int (_format_list_sorted items).length),
   ("page", .int 1),
   ("per_page", .int (_format_list_sorted items).length),
   ("offset", .int 0),
   ("has_more", .bool false),
   ("next_page", .null),
   ("next_offset", .null),
   ("_meta", .obj [])]

/-- Embedding of `_format_list_json`. -/
def _format_list_json (items : List RefItem) : String :=
  _serialize_json (.obj (_format_list_json_obj items)) false

/-! ## Article body escaping -/

/-- One character, escaped as by Python's `html.escape(s, quote=True)`. -/
def escapeHtmlChar (c : Char) : List Char :=
  if c = '&' then "&amp;".data
  else if c = '<' then "&lt;".data
  else if c = '>' then "&gt;".data
  else if c = '"' then "&quot;".data
  else if c = '\'' then "&#x27;".data
  else [c]

/-- Embedding of `html.escape(s)` (with the default `quote=True`). -/
def htmlEscape (s : String) : String := ⟨s.data.flatMap escapeHtmlChar⟩

/-- Python's `str.lower()`, restricted to ASCII case mapping (no character
relevant to the substring `"html"` lowers differently in full Unicode). -/
def pyLower (s : String) : String := ⟨s.data.map Char.toLower⟩

/-- Python's substring test `small in big`, on character lists. -/
def containsSeq (small : List Char) : List Char → Bool
  | [] => small.isEmpty
  | c :: t => small.isPrefixOf (c :: t) || containsSeq small t

/-- The fields of an article that `_escape_article_body` reads; a `none`
content type models the attribute being absent (`getattr(..., None)`). -/
structure Article where
  body : String
  content_type : Option String

/-- Embedding of `_escape_article_body(article)`: HTML-escape the body iff
the lower-cased content type contains `"html"`. -/
def _escape_article_body (a : Article) : String :=
  let ct := pyLower (a.content_type.getD "")
  if containsSeq "html".data ct.data then htmlEscape a.body else a.body

/-! ## Association-list (Python `dict`) lemmas -/

theorem dget_dset_self (ms : JObject) (k : String) (v : JValue) :
    dget (dset ms k v) k = some v := by
  induction ms with
  | nil => simp [dget, dset]
  | cons kv rest ih =>
      obtain ⟨k', v'⟩ := kv
      by_cases h : k' = k
      · simp [dget, dset, h]
      · simp [dget, dset, h, ih]

theorem dget_dset_other (ms : JObject) (k k' : String) (v : JValue) (h : k' ≠ k) :
    dget (dset ms k' v) k = dget ms k := by
  induction ms with
  | nil => simp [dget, dset, h]
  | cons kv rest ih =>
      obtain ⟨k0, v0⟩ := kv
      by_cases h0 : k0 = k'
      · subst h0
        simp [dget, dset, h]
      · have hd : dset ((k0, v0) :: rest) k' v = (k0, v0) :: dset rest k' v := by
          simp [dset, h0]
        rw [hd]
        by_cases h1 : k0 = k
        · simp [dget, h1]
        · simp [dget, h1, ih]

theorem dget_append_of_none (ms ns : JObject) (k : String) (h : dget ms k = none) :
    dget (ms ++ ns) k = dget ns k := by
  induction ms with
  | nil => simp
  | cons kv rest ih =>
      obtain ⟨k0, v0⟩ := kv
      by_cases h0 : k0 = k
      · simp [dget, h0] at h
      · simp [dget, h0] at h ⊢
        exact ih h

theorem dget_update_truncated (m : JObject) (os l : Nat) :
    dget (dictUpdate m (metaFields os l)) "truncated" = some (.bool true) := by
  simp only [dictUpdate, metaFields, List.foldl_cons, List.foldl_nil]
  rw [dget_dset_other _ _ _ _ (by decide), dget_dset_other _ _ _ _ (by decide),
      dget_dset_other _ _ _ _ (by decide), dget_dset_self]

theorem dget_update_original_size (m : JObject) (os l : Nat) :
    dget (dictUpdate m (metaFields os l)) "original_size" = some (.int os) := by
  simp only [dictUpdate, metaFields, List.foldl_cons, List.foldl_nil]
  rw [dget_dset_other _ _ _ _ (by decide), dget_dset_other _ _ _ _ (by decide),
      dget_dset_self]

/-! ## Substring membership (Python's `needle in haystack`) -/

/-- Contiguous-substring membership on character lists. -/
def hasSub (small big : List Char) : Prop := ∃ u v, big = u ++ small ++ v

theorem hasSub_append_left (small w u : List Char) (h : hasSub small w) :
    hasSub small (u ++ w) := by
  obtain ⟨a, b, rfl⟩ := h
  exact ⟨u ++ a, b, by simp⟩

theorem hasSub_append_right (small w v : List Char) (h : hasSub small w) :
    hasSub small (w ++ v) := by
  obtain ⟨a, b, rfl⟩ := h
  exact ⟨a, b ++ v, by simp⟩

/-! ## Routing lemmas for `truncate_response` -/

/-- Over-limit content that is not JSON-shaped, or fails to parse, is routed
to `_truncate_text_response`. -/
theorem truncate_to_text (content : String) (limit : Nat)
    (hover : limit < content.data.length)
    (hpath : jsonShaped content = false ∨ json_loads content = none) :
    truncate_response content limit = _truncate_text_response content limit := by
  unfold truncate_response
  rw [if_neg (by omega)]
  rcases hpath with h | h
  · rw [if_neg (by simp [h])]
  · by_cases hs : jsonShaped content
    · rw [if_pos hs, h]
    · rw [if_neg hs]

/-- C4.  For every string `s` and every limit with `len(s) <= limit`
(including equality), `truncate_response(s, limit)` returns `s` unchanged. -/
theorem claim_C4_identity_under_limit (s : String) (limit : Nat)
    (h : s.data.length ≤ limit) : truncate_response s limit = s := by
  unfold truncate_response
  rw [if_pos h]

/-- Witness for C4, at a string whose length equals the limit exactly. -/
theorem claim_C4_identity_under_limit_witness :
    "abc".data.length ≤ 3 ∧ truncate_response "abc" 3 = "abc" :=
  ⟨by decide, claim_C4_identity_under_limit "abc" 3 (by decide)⟩

/-- C6.  Over-limit input that is not JSON-shaped or fails to parse yields
the first `limit` characters followed by an appended warning block that
contains the literal substrings "Response Truncated" and "exceeds limit"
together with the original size and the limit; the appended warning makes
the total output exceed `limit`. -/
theorem claim_C6_text_truncation (s : String) (limit : Nat)
    (hover : limit < s.data.length)
    (hpath : jsonShaped s = false ∨ json_loads s = none) :
    (∃ w, (truncate_response s limit).data = s.data.take limit ++ w ∧
      hasSub "Response Truncated".data w ∧
      hasSub "exceeds limit".data w ∧
      hasSub (natChars s.data.length) w ∧
      hasSub (natChars limit) w) ∧
    limit < (truncate_response s limit).data.length := by
  rw [truncate_to_text s limit hover hpath]
  unfold _truncate_text_response
  constructor
  · refine ⟨"\n\n⚠️ **Response Truncated**\n".data ++ ("Response size (".data ++
      (natChars s.data.length ++ (" chars) exceeds limit (".data ++ (natChars limit ++
      (" chars).\n".data ++
       "Use pagination (page/per_page) or add filters to see more results.".data))))),
      rfl, ?_, ?_, ?_, ?_⟩
    · exact hasSub_append_right _ _ _ ⟨"\n\n⚠️ **".data, "**\n".data, by rfl⟩
    · exact hasSub_append_left _ _ _ (hasSub_append_left _ _ _
        (hasSub_append_left _ _ _ (hasSub_append_right _ _ _
          ⟨" chars) ".data, " (".data, by rfl⟩)))
    · exact hasSub_append_left _ _ _ (hasSub_append_left _ _ _
        ⟨[], " chars) exceeds limit (".data ++ (natChars limit ++ (" chars).\n".data ++
          "Use pagination (page/per_page) or add filters to see more results.".data)),
          by simp⟩)
    · exact hasSub_append_left _ _ _ (hasSub_append_left _ _ _
        (hasSub_append_left _ _ _ (hasSub_append_left _ _ _
          ⟨[], " chars).\n".data ++
            "Use pagination (page/per_page) or add filters to see more results.".data,
            by simp⟩)))
  · have h28 : "\n\n⚠️ **Response Truncated**\n".data.length = 28 := by decide
    simp only [List.length_append, List.length_take, h28]
    omega

/-- Witness for C6: a short Markdown document truncated at limit 10. -/
theorem claim_C6_text_truncation_witness :
    (10 < "# Results\nplain text body padding padding".data.length ∧
      jsonShaped "# Results\nplain text body padding padding" = false) ∧
    ((∃ w, (truncate_response "# Results\nplain text body padding padding" 10).data =
        "# Results\nplain text body padding padding".data.take 10 ++ w ∧
      hasSub "Response Truncated".data w ∧
      hasSub "exceeds limit".data w ∧
      hasSub (natChars "# Results\nplain text body padding padding".data.length) w ∧
      hasSub (natChars 10) w) ∧
    10 < (truncate_response "# Results\nplain text body padding padding" 10).data.length) :=
  ⟨⟨by decide, by decide⟩,
   claim_C6_text_truncation "# Results\nplain text body padding padding" 10
     (by decide) (Or.inl (by decide))⟩

/-- C9.  If, on over-limit JSON-shaped input, JSON parsing fails or the JSON
truncation step raises (modelled by `none`), `truncate_response` does not
propagate the failure but falls back to plain-text truncation. -/
theorem claim_C9_exception_fallback (content : String) (limit : Nat) (o : JObject)
    (hover : limit < content.data.length) (hshaped : jsonShaped content = true)
    (hexc : json_loads content = none ∨
      (json_loads content = some (.obj o) ∧
        _truncate_json_response content o limit = none)) :
    truncate_response content limit = _truncate_text_response content limit := by
  unfold truncate_response
  rw [if_neg (by omega), if_pos hshaped]
  rcases hexc with h | ⟨h1, h2⟩
  · rw [h]
  · rw [h1]
    show (match _truncate_json_response content o limit with
          | some s => s
          | none => _truncate_text_response content limit) =
        _truncate_text_response content limit
    rw [h2]

/-- Concrete over-limit JSON input whose `"_meta"` member is not an object,
so `meta.update(...)` raises `AttributeError` inside the JSON truncation
step. -/
def c9input : String := "\x7b\"items\":[1,2,3,4,5,6,7,8,9,10],\"_meta\":5\x7d"

/-- The parse of `c9input`. -/
def c9obj : JObject :=
  [("items", .arr [.int 1, .int 2, .int 3, .int 4, .int 5, .int 6, .int 7,
                   .int 8, .int 9, .int 10]),
   ("_meta", .int 5)]

/-- Witness for C9: parsing succeeds, the JSON truncation step raises
(returns `none`), and `truncate_response` falls back to text truncation. -/
theorem claim_C9_exception_fallback_witness :
    (20 < c9input.data.length ∧ jsonShaped c9input = true ∧
     json_loads c9input = some (.obj c9obj) ∧
     _truncate_json_response c9input c9obj 20 = none) ∧
    truncate_response c9input 20 = _truncate_text_response c9input 20 :=
  ⟨⟨by decide, by rfl, by rfl, by rfl⟩,
   claim_C9_exception_fallback c9input 20 c9obj (by decide) (by rfl)
     (Or.inr ⟨by rfl, by rfl⟩)⟩

/-- C10.  The body-rendering helper returns the HTML-escaped body exactly
when the article's content type (case-insensitively) contains the substring
"html" (a missing content type counting as the empty string), and the raw
body unchanged otherwise. -/
theorem claim_C10_escape_article_body (a : Article) :
    (containsSeq "html".data (pyLower (a.content_type.getD "")).data = true →
      _escape_article_body a = htmlEscape a.body) ∧
    (containsSeq "html".data (pyLower (a.content_type.getD "")).data = false →
      _escape_article_body a = a.body) := by
  constructor <;> intro h <;> simp [_escape_article_body, h]

/-- Witness for C10: an upper-cased HTML content type triggers escaping. -/
theorem claim_C10_escape_article_body_witness :
    _escape_article_body ⟨"a<b", some "text/HTML"⟩ = htmlEscape "a<b" ∧
    htmlEscape "a<b" = "a&lt;b" :=
  ⟨(claim_C10_escape_article_body ⟨"a<b", some "text/HTML"⟩).1 (by rfl), by rfl⟩

/-! ## Decimal digits: `natChars` inverts through `digitsToNat` -/

theorem digitCh_spec (k : Nat) (h : k < 10) :
    (digitCh k).toNat = 48 + k ∧ isDigitCh (digitCh k) = true := by
  interval_cases k <;> exact ⟨by decide, by decide⟩

theorem natCharsGo_acc (n : Nat) : ∀ fuel acc, n < fuel →
    natCharsGo fuel n acc = natChars n ++ acc := by
  induction n using Nat.strongRecOn with
  | _ n ih =>
      intro fuel acc hf
      obtain ⟨f, rfl⟩ : ∃ f, fuel = f + 1 := ⟨fuel - 1, by omega⟩
      show (if n < 10 then digitCh n :: acc
            else natCharsGo f (n / 10) (digitCh (n % 10) :: acc)) = natChars n ++ acc
      by_cases h : n < 10
      · rw [if_pos h]
        show _ = natCharsGo (n + 1) n [] ++ acc
        show _ = (if n < 10 then digitCh n :: []
                  else natCharsGo n (n / 10) (digitCh (n % 10) :: [])) ++ acc
        rw [if_pos h]
        rfl
      · rw [if_neg h]
        have hdiv : n / 10 < n := Nat.div_lt_self (by omega) (by omega)
        rw [ih (n / 10) hdiv f (digitCh (n % 10) :: acc) (by omega)]
        show _ = natCharsGo (n + 1) n [] ++ acc
        show _ = (if n < 10 then digitCh n :: []
                  else natCharsGo n (n / 10) (digitCh (n % 10) :: [])) ++ acc
        rw [if_neg h, ih (n / 10) hdiv n [digitCh (n % 10)] (by omega)]
        simp

theorem natChars_step (n : Nat) :
    natChars n = (if n < 10 then [] else natChars (n / 10)) ++ [digitCh (n % 10)] := by
  by_cases h : n < 10
  · rw [if_pos h]
    show natCharsGo (n + 1) n [] = [digitCh (n % 10)]
    show (if n < 10 then digitCh n :: []
          else natCharsGo n (n / 10) (digitCh (n % 10) :: [])) = [digitCh (n % 10)]
    rw [if_pos h, Nat.mod_eq_of_lt h]
  · rw [if_neg h]
    show natCharsGo (n + 1) n [] = _
    show (if n < 10 then digitCh n :: []
          else natCharsGo n (n / 10) (digitCh (n % 10) :: [])) = _
    rw [if_neg h,
        natCharsGo_acc (n / 10) n [digitCh (n % 10)]
          (Nat.div_lt_self (by omega) (by omega))]

theorem natChars_all_digits (n : Nat) : ∀ c ∈ natChars n, isDigitCh c = true := by
  induction n using Nat.strongRecOn with
  | _ n ih =>
      rw [natChars_step]
      intro c hc
      rw [List.mem_append] at hc
      rcases hc with hc | hc
      · by_cases h : n < 10
        · simp [h] at hc
        · exact ih (n / 10) (Nat.div_lt_self (by omega) (by omega)) c (by simpa [h] using hc)
      · rw [List.mem_singleton] at hc
        subst hc
        exact (digitCh_spec (n % 10) (Nat.mod_lt _ (by omega))).2

theorem digitsToNat_natChars (n : Nat) : digitsToNat (natChars n) = n := by
  induction n using Nat.strongRecOn with
  | _ n ih =>
      rw [natChars_step]
      unfold digitsToNat
      rw [List.foldl_append]
      by_cases h : n < 10
      · simp only [if_pos h, List.foldl_nil, List.foldl_cons]
        rw [(digitCh_spec (n % 10) (Nat.mod_lt _ (by omega))).1]
        omega
      · simp only [if_neg h, List.foldl_cons, List.foldl_nil]
        have := ih (n / 10) (Nat.div_lt_self (by omega) (by omega))
        unfold digitsToNat at this
        rw [this, (digitCh_spec (n % 10) (Nat.mod_lt _ (by omega))).1]
        omega

theorem natChars_cons (n : Nat) :
    ∃ c t, natChars n = c :: t ∧ isDigitCh c = true ∧ (n = 0 ∨ c ≠ '0') := by
  induction n using Nat.strongRecOn with
  | _ n ih =>
      by_cases h : n < 10
      · refine ⟨digitCh n, [], ?_, (digitCh_spec n h).2, ?_⟩
        · rw [natChars_step, if_pos h, Nat.mod_eq_of_lt h]
          rfl
        · rcases Nat.eq_zero_or_pos n with h0 | h0
          · exact Or.inl h0
          · refine Or.inr fun hc => ?_
            have := (digitCh_spec n h).1
            rw [hc] at this
            simp at this
            omega
      · obtain ⟨c, t, heq, hd, hz⟩ := ih (n / 10) (Nat.div_lt_self (by omega) (by omega))
        refine ⟨c, t ++ [digitCh (n % 10)], ?_, hd, Or.inr ?_⟩
        · rw [natChars_step, if_neg h, heq]
          simp
        · rcases hz with hz | hz
          · omega
          · exact hz

theorem noLeadingZero_natChars (n : Nat) : noLeadingZero (natChars n) = true := by
  obtain ⟨c, t, heq, _, hz⟩ := natChars_cons n
  rw [heq]
  rcases hz with hz | hz
  · subst hz
    have h0 : natChars 0 = ['0'] := by
      rw [natChars_step]
      simp
      rfl
    rw [h0] at heq
    obtain ⟨rfl, rfl⟩ : c = '0' ∧ t = [] := by
      cases heq
      exact ⟨rfl, rfl⟩
    rfl
  · cases t with
    | nil =>
        show noLeadingZero [c] = true
        unfold noLeadingZero
        split
        · rename_i hmm
          cases hmm
        · rfl
    | cons a b =>
        show noLeadingZero (c :: a :: b) = true
        unfold noLeadingZero
        split
        · rename_i hmm
          cases hmm
          exact absurd rfl hz
        · rfl

/-! ## Number parsing inverts number printing -/

/-- A remainder that cannot extend a digit run: empty or headed by a
non-digit.  Every JSON delimiter and all serializer whitespace qualifies. -/
def notDigitStart : List Char → Bool
  | [] => true
  | c :: _ => !isDigitCh c

theorem takeDigits_stop (cs : List Char) (h : notDigitStart cs = true) :
    takeDigits cs = ([], cs) := by
  match cs with
  | [] => rfl
  | c :: t =>
      simp only [notDigitStart, Bool.not_eq_true'] at h
      simp [takeDigits, h]

theorem takeDigits_run (ds : List Char) (hds : ∀ c ∈ ds, isDigitCh c = true)
    (rest : List Char) (hrest : notDigitStart rest = true) :
    takeDigits (ds ++ rest) = (ds, rest) := by
  induction ds with
  | nil => simpa using takeDigits_stop rest hrest
  | cons c t ih =>
      have hc : isDigitCh c = true := hds c (by simp)
      have ht := ih fun x hx => hds x (by simp [hx])
      simp [takeDigits, hc, ht]

theorem parseNum_rt (i : Int) (rest : List Char) (hr : notDigitStart rest = true) :
    parseNum (intChars i ++ rest) = some (i, rest) := by
  obtain ⟨c0, t0, hnc, hd0, _⟩ := natChars_cons i.natAbs
  have htd : takeDigits (natChars i.natAbs ++ rest) = (natChars i.natAbs, rest) :=
    takeDigits_run _ (natChars_all_digits _) rest hr
  have hnlz := noLeadingZero_natChars i.natAbs
  have hdn := digitsToNat_natChars i.natAbs
  by_cases hi : i < 0
  · have harg : intChars i ++ rest = '-' :: (natChars i.natAbs ++ rest) := by
      simp [intChars, hi]
    rw [harg]
    show (match takeDigits (natChars i.natAbs ++ rest) with
          | ([], _) => none
          | (ds, r) => if noLeadingZero ds then some (-(digitsToNat ds : Int), r) else none) =
        some (i, rest)
    rw [htd, hnc]
    show (if noLeadingZero (c0 :: t0) then
            some (-(digitsToNat (c0 :: t0) : Int), rest) else none) = some (i, rest)
    rw [hnc] at hnlz hdn
    rw [hnlz, if_pos rfl, hdn]
    have : -(i.natAbs : Int) = i := by omega
    rw [this]
  · have hne : c0 ≠ '-' := by
      intro he
      rw [he] at hd0
      exact absurd hd0 (by decide)
    have harg : intChars i ++ rest = c0 :: (t0 ++ rest) := by
      simp [intChars, hi, hnc]
    rw [harg]
    rw [parseNum.eq_def]
    split
    · rename_i heq
      cases heq
      exact absurd rfl hne
    · rw [← List.cons_append, ← hnc, htd, hnc]
      show (if noLeadingZero (c0 :: t0) then
              some ((digitsToNat (c0 :: t0) : Int), rest) else none) = some (i, rest)
      rw [hnc] at hnlz hdn
      rw [hnlz, if_pos rfl, hdn]
      have : (i.natAbs : Int) = i := by omega
      rw [this]

/-! ## String escaping inverts through the parser -/

theorem hexVal_hexCh (d : Nat) (h : d < 16) : hexVal (hexCh d) = some d := by
  interval_cases d <;> decide

theorem hexQuad_hex4 (n : Nat) (h : n < 65536) :
    hexQuad (hexCh (n / 4096 % 16)) (hexCh (n / 256 % 16))
      (hexCh (n / 16 % 16)) (hexCh (n % 16)) = some n := by
  unfold hexQuad
  rw [hexVal_hexCh _ (Nat.mod_lt _ (by omega)), hexVal_hexCh _ (Nat.mod_lt _ (by omega)),
      hexVal_hexCh _ (Nat.mod_lt _ (by omega)), hexVal_hexCh _ (Nat.mod_lt _ (by omega))]
  show some _ = some n
  congr 1
  omega

/-- The code point of every `Char` avoids the surrogate range. -/
theorem char_toNat_valid (c : Char) :
    c.toNat < 55296 ∨ (57343 < c.toNat ∧ c.toNat < 1114112) := c.valid



theorem parseStrAux_succ (fuel : Nat) (acc input : List Char) :
    parseStrAux (fuel + 1) acc input =
      (match input with
       | '"' :: rest => some (acc.reverse, rest)
       | '\\' :: 'u' :: a :: b :: c :: d :: rest =>
           match hexQuad a b c d with
           | some n =>
               if 55296 ≤ n ∧ n < 56320 then
                 match parseSurr n rest with
                 | some (ch, rest2) => parseStrAux fuel (ch :: acc) rest2
                 | none => none
               else if 56320 ≤ n ∧ n < 57344 then none
               else parseStrAux fuel (Char.ofNat n :: acc) rest
           | none => none
       | '\\' :: e :: rest =>
           match unesc e with
           | some ch => parseStrAux fuel (ch :: acc) rest
           | none => none
       | c :: rest => if c.toNat < 32 then none else parseStrAux fuel (c :: acc) rest
       | [] => none) := rfl

theorem parseSurr_hex (n m : Nat) (hm : m < 65536) (h56 : 56320 ≤ m ∧ m < 57344)
    (rest : List Char) :
    parseSurr n ('\\' :: 'u' :: hexCh (m / 4096 % 16) :: hexCh (m / 256 % 16) ::
      hexCh (m / 16 % 16) :: hexCh (m % 16) :: rest) =
      some (Char.ofNat (65536 + (n - 55296) * 1024 + (m - 56320)), rest) := by
  have hstep : parseSurr n ('\\' :: 'u' :: hexCh (m / 4096 % 16) :: hexCh (m / 256 % 16) ::
      hexCh (m / 16 % 16) :: hexCh (m % 16) :: rest) =
      (match hexQuad (hexCh (m / 4096 % 16)) (hexCh (m / 256 % 16))
          (hexCh (m / 16 % 16)) (hexCh (m % 16)) with
       | some m' =>
           if 56320 ≤ m' ∧ m' < 57344 then
             some (Char.ofNat (65536 + (n - 55296) * 1024 + (m' - 56320)), rest)
           else none
       | none => none) := rfl
  rw [hstep, hexQuad_hex4 m hm]
  show (if 56320 ≤ m ∧ m < 57344 then
          some (Char.ofNat (65536 + (n - 55296) * 1024 + (m - 56320)), rest)
        else none) = _
  rw [if_pos h56]

/-- Parsing one escaped character undoes the escaping (one fuel step per
escape chunk). -/
theorem parseStrAux_esc (c : Char) (fuel : Nat) (acc rest : List Char) :
    parseStrAux (fuel + 1) acc (escChar c ++ rest) = parseStrAux fuel (c :: acc) rest := by
  by_cases h1 : c = '"'
  · subst h1; rfl
  · by_cases h2 : c = '\\'
    · subst h2; rfl
    · by_cases h3 : c = '\n'
      · subst h3; rfl
      · by_cases h4 : c = '\r'
        · subst h4; rfl
        · by_cases h5 : c = '\t'
          · subst h5; rfl
          · by_cases h6 : c.toNat = 8
            · have hc : c = Char.ofNat 8 := by rw [← h6, Char.ofNat_toNat]
              rw [escChar, if_neg h1, if_neg h2, if_neg h3, if_neg h4, if_neg h5, if_pos h6]
              show parseStrAux fuel (Char.ofNat 8 :: acc) rest = _
              rw [← hc]
            · by_cases h7 : c.toNat = 12
              · have hc : c = Char.ofNat 12 := by rw [← h7, Char.ofNat_toNat]
                rw [escChar, if_neg h1, if_neg h2, if_neg h3, if_neg h4, if_neg h5,
                    if_neg h6, if_pos h7]
                show parseStrAux fuel (Char.ofNat 12 :: acc) rest = _
                rw [← hc]
              · by_cases h8 : 32 ≤ c.toNat ∧ c.toNat ≤ 126
                · rw [escChar, if_neg h1, if_neg h2, if_neg h3, if_neg h4, if_neg h5,
                      if_neg h6, if_neg h7, if_pos h8]
                  show parseStrAux (fuel + 1) acc (c :: rest) = _
                  rw [parseStrAux_succ]
                  split
                  · rename_i heq
                    cases heq
                    exact absurd rfl h1
                  · rename_i heq
                    cases heq
                    exact absurd rfl h2
                  · rename_i heq
                    cases heq
                    exact absurd rfl h2
                  · rename_i c' rest' heq
                    cases heq
                    rw [if_neg (by omega)]
                  · rename_i heq
                    cases heq
                · by_cases h9 : c.toNat < 65536
                  · rw [escChar, if_neg h1, if_neg h2, if_neg h3, if_neg h4, if_neg h5,
                        if_neg h6, if_neg h7, if_neg h8, if_pos h9]
                    show parseStrAux (fuel + 1) acc ('\\' :: 'u' :: hexCh (c.toNat / 4096 % 16) ::
                      hexCh (c.toNat / 256 % 16) :: hexCh (c.toNat / 16 % 16) ::
                      hexCh (c.toNat % 16) :: rest) = _
                    rw [parseStrAux_succ]
                    split
                    · rename_i heq
                      cases heq
                    · rename_i a' b' c' d' rest' heq
                      cases heq
                      rw [hexQuad_hex4 c.toNat h9]
                      have hv := char_toNat_valid c
                      split
                      · rename_i n' heq2
                        cases heq2
                        rw [if_neg (by omega), if_neg (by omega), Char.ofNat_toNat]
                      · rename_i heq2
                        cases heq2
                    · rename_i hno heq
                      cases heq
                      exact (hno (hexCh (c.toNat / 4096 % 16)) (hexCh (c.toNat / 256 % 16))
                        (hexCh (c.toNat / 16 % 16)) (hexCh (c.toNat % 16)) rest rfl rfl).elim
                    · rename_i hno1 hno2 hno3 heq
                      cases heq
                      exact (hno2 (hexCh (c.toNat / 4096 % 16)) (hexCh (c.toNat / 256 % 16))
                        (hexCh (c.toNat / 16 % 16)) (hexCh (c.toNat % 16)) rest rfl rfl).elim
                    · rename_i heq
                      cases heq
                  · rw [escChar, if_neg h1, if_neg h2, if_neg h3, if_neg h4, if_neg h5,
                        if_neg h6, if_neg h7, if_neg h8, if_neg h9]
                    have hv := char_toNat_valid c
                    have hmod := Nat.mod_lt (c.toNat - 65536) (y := 1024) (by omega)
                    have hdivlt : (c.toNat - 65536) / 1024 < 1024 := by omega
                    show parseStrAux (fuel + 1) acc ('\\' :: 'u' ::
                      hexCh ((55296 + (c.toNat - 65536) / 1024) / 4096 % 16) ::
                      hexCh ((55296 + (c.toNat - 65536) / 1024) / 256 % 16) ::
                      hexCh ((55296 + (c.toNat - 65536) / 1024) / 16 % 16) ::
                      hexCh ((55296 + (c.toNat - 65536) / 1024) % 16) ::
                      ('\\' :: 'u' :: hexCh ((56320 + (c.toNat - 65536) % 1024) / 4096 % 16) ::
                       hexCh ((56320 + (c.toNat - 65536) % 1024) / 256 % 16) ::
                       hexCh ((56320 + (c.toNat - 65536) % 1024) / 16 % 16) ::
                       hexCh ((56320 + (c.toNat - 65536) % 1024) % 16) :: rest)) = _
                    rw [parseStrAux_succ]
                    split
                    · rename_i heq
                      cases heq
                    · rename_i a' b' c' d' rest' heq
                      cases heq
                      rw [hexQuad_hex4 _ (by omega)]
                      split
                      · rename_i n' heq2
                        cases heq2
                        rw [if_pos ⟨by omega, by omega⟩]
                        rw [parseSurr_hex _ _ (by omega) ⟨by omega, by omega⟩]
                        show parseStrAux fuel (Char.ofNat (65536 +
                          (55296 + (c.toNat - 65536) / 1024 - 55296) * 1024 +
                          (56320 + (c.toNat - 65536) % 1024 - 56320)) :: acc) rest = _
                        have harith : 65536 + (55296 + (c.toNat - 65536) / 1024 - 55296) * 1024 +
                            (56320 + (c.toNat - 65536) % 1024 - 56320) = c.toNat := by
                          have := Nat.div_add_mod (c.toNat - 65536) 1024
                          omega
                        rw [harith, Char.ofNat_toNat]
                      · rename_i heq2
                        cases heq2
                    · rename_i hno heq
                      cases heq
                      exact (hno (hexCh ((55296 + (c.toNat - 65536) / 1024) / 4096 % 16))
                        (hexCh ((55296 + (c.toNat - 65536) / 1024) / 256 % 16))
                        (hexCh ((55296 + (c.toNat - 65536) / 1024) / 16 % 16))
                        (hexCh ((55296 + (c.toNat - 65536) / 1024) % 16))
                        ('\\' :: 'u' :: hexCh ((56320 + (c.toNat - 65536) % 1024) / 4096 % 16) ::
                         hexCh ((56320 + (c.toNat - 65536) % 1024) / 256 % 16) ::
                         hexCh ((56320 + (c.toNat - 65536) % 1024) / 16 % 16) ::
                         hexCh ((56320 + (c.toNat - 65536) % 1024) % 16) :: rest) rfl rfl).elim
                    · rename_i hno1 hno2 hno3 heq
                      cases heq
                      exact (hno2 (hexCh ((55296 + (c.toNat - 65536) / 1024) / 4096 % 16))
                        (hexCh ((55296 + (c.toNat - 65536) / 1024) / 256 % 16))
                        (hexCh ((55296 + (c.toNat - 65536) / 1024) / 16 % 16))
                        (hexCh ((55296 + (c.toNat - 65536) / 1024) % 16))
                        ('\\' :: 'u' :: hexCh ((56320 + (c.toNat - 65536) % 1024) / 4096 % 16) ::
                         hexCh ((56320 + (c.toNat - 65536) % 1024) / 256 % 16) ::
                         hexCh ((56320 + (c.toNat - 65536) % 1024) / 16 % 16) ::
                         hexCh ((56320 + (c.toNat - 65536) % 1024) % 16) :: rest) rfl rfl).elim
                    · rename_i heq
                      cases heq

/-- One escape chunk per character: parsing an escaped run stops at the
closing quote and recovers the original characters. -/
theorem parseStrAux_chunks (cs : List Char) : ∀ fuel acc rest, cs.length < fuel →
    parseStrAux fuel acc (cs.flatMap escChar ++ ('"' :: rest)) =
      some (acc.reverse ++ cs, rest) := by
  induction cs with
  | nil =>
      intro fuel acc rest hf
      obtain ⟨f, rfl⟩ : ∃ f, fuel = f + 1 := ⟨fuel - 1, by omega⟩
      show parseStrAux (f + 1) acc ('"' :: rest) = _
      show some (acc.reverse, rest) = _
      simp
  | cons c cs ih =>
      intro fuel acc rest hf
      obtain ⟨f, rfl⟩ : ∃ f, fuel = f + 1 := ⟨fuel - 1, by omega⟩
      rw [List.flatMap_cons, List.append_assoc, parseStrAux_esc,
          ih f (c :: acc) rest (by simpa using hf)]
      simp

/-- Every character escapes to at least one character. -/
theorem escChar_length_pos (c : Char) : 1 ≤ (escChar c).length := by
  unfold escChar
  split_ifs <;> simp [hex4]

/-- The escaped form is at least as long as the original. -/
theorem flatMap_escChar_length (cs : List Char) :
    cs.length ≤ (cs.flatMap escChar).length := by
  induction cs with
  | nil => simp
  | cons c cs ih =>
      rw [List.flatMap_cons, List.length_append]
      have := escChar_length_pos c
      simp only [List.length_cons]
      omega

/-! ## One-step unfoldings of the parser (definitional) -/

theorem parseVal_succ (fuel : Nat) (cs : List Char) :
    parseVal (fuel + 1) cs =
      (match skipWs cs with
       | 'n' :: 'u' :: 'l' :: 'l' :: r => some (.null, r)
       | 't' :: 'r' :: 'u' :: 'e' :: r => some (.bool true, r)
       | 'f' :: 'a' :: 'l' :: 's' :: 'e' :: r => some (.bool false, r)
       | '"' :: r =>
           match parseStrAux (r.length + 1) [] r with
           | some (chars, r') => some (.str ⟨chars⟩, r')
           | none => none
       | '[' :: r =>
           match skipWs r with
           | ']' :: r' => some (.arr [], r')
           | other =>
               match parseItems fuel other with
               | some (xs, r'') => some (.arr xs, r'')
               | none => none
       | '{' :: r =>
           match skipWs r with
           | '}' :: r' => some (.obj [], r')
           | other =>
               match parseEntries fuel other with
               | some (ms, r'') => some (.obj ms, r'')
               | none => none
       | c :: rest =>
           if c == '-' || isDigitCh c then
             match parseNum (c :: rest) with
             | some (n, r') => some (.int n, r')
             | none => none
           else none
       | [] => none) := rfl

theorem parseItems_succ (fuel : Nat) (cs : List Char) :
    parseItems (fuel + 1) cs =
      (match parseVal fuel cs with
       | none => none
       | some (v, r) =>
           match skipWs r with
           | ',' :: r' =>
               match parseItems fuel r' with
               | some (vs, r'') => some (v :: vs, r'')
               | none => none
           | ']' :: r' => some ([v], r')
           | _ => none) := rfl

theorem parseEntries_succ (fuel : Nat) (cs : List Char) :
    parseEntries (fuel + 1) cs =
      (match skipWs cs with
       | '"' :: r =>
           match parseStrAux (r.length + 1) [] r with
           | none => none
           | some (kcs, r1) =>
               match skipWs r1 with
               | ':' :: r2 =>
                   match parseVal fuel r2 with
                   | none => none
                   | some (v, r3) =>
                       match skipWs r3 with
                       | ',' :: r4 =>
                           match parseEntries fuel r4 with
                           | some (ms, r5) => some ((⟨kcs⟩, v) :: ms, r5)
                           | none => none
                       | '}' :: r4 => some ([(⟨kcs⟩, v)], r4)
                       | _ => none
               | _ => none
       | _ => none) := rfl

/-! ## Whitespace and head-character lemmas -/

theorem skipWs_nonws {c : Char} (h : jsonWs c = false) (x : List Char) :
    skipWs (c :: x) = c :: x := by
  simp [skipWs, h]

theorem skipWs_all {w : List Char} (hw : ∀ c ∈ w, jsonWs c = true) (x : List Char) :
    skipWs (w ++ x) = skipWs x := by
  induction w with
  | nil => rfl
  | cons c t ih =>
      have hc := hw c (by simp)
      rw [List.cons_append]
      show skipWs (c :: (t ++ x)) = _
      rw [skipWs.eq_def]
      simp only [hc, if_pos]
      exact ih fun a ha => hw a (by simp [ha])

theorem nlind_ws (uc : Bool) (d : Nat) : ∀ c ∈ nlind uc d, jsonWs c = true := by
  intro c hc
  cases uc with
  | true => simp [nlind] at hc
  | false =>
      simp only [nlind, Bool.false_eq_true, if_false, List.mem_cons] at hc
      rcases hc with rfl | hc
      · rfl
      · rw [List.eq_of_mem_replicate hc]
        rfl

theorem parseVal_ws (fuel : Nat) {w : List Char} (hw : ∀ c ∈ w, jsonWs c = true)
    (x : List Char) : parseVal fuel (w ++ x) = parseVal fuel x := by
  cases fuel with
  | zero => rfl
  | succ f => rw [parseVal_succ, parseVal_succ, skipWs_all hw]

theorem parseItems_ws (fuel : Nat) {w : List Char} (hw : ∀ c ∈ w, jsonWs c = true)
    (x : List Char) : parseItems fuel (w ++ x) = parseItems fuel x := by
  cases fuel with
  | zero => rfl
  | succ f => rw [parseItems_succ, parseItems_succ, parseVal_ws f hw]

theorem parseEntries_ws (fuel : Nat) {w : List Char} (hw : ∀ c ∈ w, jsonWs c = true)
    (x : List Char) : parseEntries fuel (w ++ x) = parseEntries fuel x := by
  cases fuel with
  | zero => rfl
  | succ f => rw [parseEntries_succ, parseEntries_succ, skipWs_all hw]

/-- A digit differs from any character whose code point is not a digit's. -/
theorem notDigit_char (d : Char) (hd : ¬(48 ≤ d.toNat ∧ d.toNat ≤ 57)) {c : Char}
    (h : isDigitCh c = true) : c ≠ d := by
  intro he
  subst he
  simp [isDigitCh] at h
  omega

/-- The facts the round-trip proof needs about a digit head. -/
theorem digit_head_facts {c : Char} (h : isDigitCh c = true) :
    jsonWs c = false ∧ c ≠ ']' ∧ (c == '-' || isDigitCh c) = true ∧
    c ≠ 'n' ∧ c ≠ 't' ∧ c ≠ 'f' ∧ c ≠ '"' ∧ c ≠ '[' ∧ c ≠ '{' := by
  have h1 : c ≠ ' ' := notDigit_char _ (by decide) h
  have h2 : c ≠ '\t' := notDigit_char _ (by decide) h
  have h3 : c ≠ '\n' := notDigit_char _ (by decide) h
  have h4 : c ≠ '\r' := notDigit_char _ (by decide) h
  refine ⟨?_, notDigit_char _ (by decide) h, by simp [h], notDigit_char _ (by decide) h,
    notDigit_char _ (by decide) h, notDigit_char _ (by decide) h,
    notDigit_char _ (by decide) h, notDigit_char _ (by decide) h,
    notDigit_char _ (by decide) h⟩
  simp [jsonWs, beq_eq_false_iff_ne, h1, h2, h3, h4]

/-- Every serialized value begins with a non-whitespace character that is
not `]`. -/
theorem serVal_head (uc : Bool) (d : Nat) (v : JValue) :
    ∃ c t, serVal uc d v = c :: t ∧ jsonWs c = false ∧ c ≠ ']' := by
  cases v with
  | null => exact ⟨'n', _, rfl, by decide, by decide⟩
  | bool b => cases b with
      | true => exact ⟨'t', _, rfl, by decide, by decide⟩
      | false => exact ⟨'f', _, rfl, by decide, by decide⟩
  | str s => exact ⟨'"', _, rfl, by decide, by decide⟩
  | arr xs => cases xs with
      | nil => exact ⟨'[', _, rfl, by decide, by decide⟩
      | cons x xs => exact ⟨'[', _, rfl, by decide, by decide⟩
  | obj ms =>
      match ms with
      | [] => exact ⟨'{', _, rfl, by decide, by decide⟩
      | (k, v') :: ms => exact ⟨'{', _, rfl, by decide, by decide⟩
  | int i =>
      by_cases hi : i < 0
      · refine ⟨'-', natChars i.natAbs, ?_, by decide, by decide⟩
        show intChars i = _
        simp [intChars, hi]
      · obtain ⟨c0, t0, hnc, hd0, _⟩ := natChars_cons i.natAbs
        obtain ⟨hws, hbr, _⟩ := digit_head_facts hd0
        refine ⟨c0, t0, ?_, hws, hbr⟩
        show intChars i = _
        simp [intChars, hi, hnc]

/-! ## Dispatch lemmas: how `parseVal` reacts to each leading character -/

theorem parseVal_null (f : Nat) (r : List Char) :
    parseVal (f + 1) ('n' :: 'u' :: 'l' :: 'l' :: r) = some (.null, r) := rfl

theorem parseVal_true (f : Nat) (r : List Char) :
    parseVal (f + 1) ('t' :: 'r' :: 'u' :: 'e' :: r) = some (.bool true, r) := rfl

theorem parseVal_false (f : Nat) (r : List Char) :
    parseVal (f + 1) ('f' :: 'a' :: 'l' :: 's' :: 'e' :: r) = some (.bool false, r) := rfl

theorem parseVal_str_dispatch (f : Nat) (r : List Char) :
    parseVal (f + 1) ('"' :: r) =
      (match parseStrAux (r.length + 1) [] r with
       | some (chars, r') => some (.str ⟨chars⟩, r')
       | none => none) := rfl

theorem parseVal_arr_dispatch (f : Nat) (r : List Char) :
    parseVal (f + 1) ('[' :: r) =
      (match skipWs r with
       | ']' :: r' => some (.arr [], r')
       | other =>
           match parseItems f other with
           | some (xs, r'') => some (.arr xs, r'')
           | none => none) := rfl

theorem parseVal_obj_dispatch (f : Nat) (r : List Char) :
    parseVal (f + 1) ('{' :: r) =
      (match skipWs r with
       | '}' :: r' => some (.obj [], r')
       | other =>
           match parseEntries f other with
           | some (ms, r'') => some (.obj ms, r'')
           | none => none) := rfl

/-- A value whose input starts with a sign or digit parses through
`parseNum`. -/
theorem parseVal_num_dispatch (f : Nat) (c0 : Char) (t : List Char)
    (hg : (c0 == '-' || isDigitCh c0) = true) (hws : jsonWs c0 = false)
    (e1 : c0 ≠ 'n') (e2 : c0 ≠ 't') (e3 : c0 ≠ 'f')
    (e4 : c0 ≠ '"') (e5 : c0 ≠ '[') (e6 : c0 ≠ '{') :
    parseVal (f + 1) (c0 :: t) =
      (match parseNum (c0 :: t) with
       | some (n, r') => some (.int n, r')
       | none => none) := by
  rw [parseVal_succ, skipWs_nonws hws]
  split
  · rename_i heq
    cases heq
    exact absurd rfl e1
  · rename_i heq
    cases heq
    exact absurd rfl e2
  · rename_i heq
    cases heq
    exact absurd rfl e3
  · rename_i heq
    cases heq
    exact absurd rfl e4
  · rename_i heq
    cases heq
    exact absurd rfl e5
  · rename_i heq
    cases heq
    exact absurd rfl e6
  · rename_i c' t' heq
    cases heq
    rw [if_pos hg]
  · rename_i heq
    cases heq

/-- Anything headed by a comma, bracket, brace, or serializer whitespace
cannot extend a digit run. -/
theorem notDigitStart_nlind (uc : Bool) (d : Nat) (X : List Char)
    (hX : notDigitStart X = true) : notDigitStart (nlind uc d ++ X) = true := by
  cases uc with
  | true => simpa [nlind] using hX
  | false => rfl

theorem colonSep_cons (uc : Bool) (y : List Char) :
    colonSep uc ++ y = ':' :: ((if uc then [] else [' ']) ++ y) := by
  cases uc <;> rfl

theorem colWs_ws (uc : Bool) : ∀ c ∈ (if uc then ([] : List Char) else [' ']), jsonWs c = true := by
  cases uc <;> intro c hc <;> simp at hc
  rw [hc]
  rfl

mutual

theorem rt_val : ∀ (v : JValue) (uc : Bool) (d fuel : Nat) (rest : List Char),
    (serVal uc d v).length < fuel → notDigitStart rest = true →
    parseVal fuel (serVal uc d v ++ rest) = some (v, rest)
  | .null, uc, d, fuel, rest, hf, _ => by
      cases fuel with
      | zero => exact absurd hf (Nat.not_lt_zero _)
      | succ f => exact parseVal_null f rest
  | .bool true, uc, d, fuel, rest, hf, _ => by
      cases fuel with
      | zero => exact absurd hf (Nat.not_lt_zero _)
      | succ f => exact parseVal_true f rest
  | .bool false, uc, d, fuel, rest, hf, _ => by
      cases fuel with
      | zero => exact absurd hf (Nat.not_lt_zero _)
      | succ f => exact parseVal_false f rest
  | .int i, uc, d, fuel, rest, hf, hrest => by
      cases fuel with
      | zero => exact absurd hf (Nat.not_lt_zero _)
      | succ f =>
          by_cases hi : i < 0
          · have harg : serVal uc d (.int i) ++ rest = '-' :: (natChars i.natAbs ++ rest) := by
              show intChars i ++ rest = _
              simp [intChars, hi]
            rw [harg, parseVal_num_dispatch f '-' _ (by decide) (by decide) (by decide)
                (by decide) (by decide) (by decide) (by decide) (by decide)]
            have hre : '-' :: (natChars i.natAbs ++ rest) = intChars i ++ rest := by
              simp [intChars, hi]
            rw [hre, parseNum_rt i rest hrest]
          · obtain ⟨c0, t0, hnc, hd0, _⟩ := natChars_cons i.natAbs
            obtain ⟨hws, _, hg, hn, ht, hfc, hq, hbk, hbc⟩ := digit_head_facts hd0
            have harg : serVal uc d (.int i) ++ rest = c0 :: (t0 ++ rest) := by
              show intChars i ++ rest = _
              simp [intChars, hi, hnc]
            rw [harg, parseVal_num_dispatch f c0 _ hg hws hn ht hfc hq hbk hbc]
            have hre : c0 :: (t0 ++ rest) = intChars i ++ rest := by
              simp [intChars, hi, hnc]
            rw [hre, parseNum_rt i rest hrest]
  | .str s, uc, d, fuel, rest, hf, _ => by
      cases fuel with
      | zero => exact absurd hf (Nat.not_lt_zero _)
      | succ f =>
          have harg : serVal uc d (.str s) ++ rest
              = '"' :: (s.data.flatMap escChar ++ ('"' :: rest)) := by
            show serStr s ++ rest = _
            simp [serStr]
          rw [harg, parseVal_str_dispatch]
          rw [parseStrAux_chunks s.data _ [] rest (by
            have h1 := flatMap_escChar_length s.data
            simp only [List.length_append, List.length_cons]
            omega)]
          rfl
  | .arr [], uc, d, fuel, rest, hf, _ => by
      cases fuel with
      | zero => exact absurd hf (Nat.not_lt_zero _)
      | succ f =>
          have harg : serVal uc d (.arr []) ++ rest = '[' :: (']' :: rest) := rfl
          rw [harg, parseVal_arr_dispatch]
          rw [skipWs_nonws (by decide)]
          rfl
  | .arr (x :: xs), uc, d, fuel, rest, hf, _ => by
      cases fuel with
      | zero => exact absurd hf (Nat.not_lt_zero _)
      | succ f =>
          have harg : serVal uc d (.arr (x :: xs)) ++ rest
              = '[' :: (nlind uc (d + 1) ++ (serVal uc (d + 1) x ++ (serArrTail uc (d + 1) xs
                  ++ (nlind uc d ++ (']' :: rest))))) := by
            show ('[' :: (nlind uc (d + 1) ++ (serVal uc (d + 1) x ++ (serArrTail uc (d + 1) xs
                  ++ (nlind uc d ++ [']']))))) ++ rest = _
            simp [List.append_assoc]
          have hlen : (serVal uc d (.arr (x :: xs))).length
              = 1 + ((nlind uc (d + 1)).length + ((serVal uc (d + 1) x).length
                + ((serArrTail uc (d + 1) xs).length + ((nlind uc d).length + 1)))) := by
            show ('[' :: (nlind uc (d + 1) ++ (serVal uc (d + 1) x ++ (serArrTail uc (d + 1) xs
                  ++ (nlind uc d ++ [']']))))).length = _
            simp only [List.length_cons, List.length_append, List.length_nil]
            omega
          rw [harg, parseVal_arr_dispatch]
          obtain ⟨c, t, hsx, hcws, hcbr⟩ := serVal_head uc (d + 1) x
          have hskip : skipWs (nlind uc (d + 1) ++ (serVal uc (d + 1) x
              ++ (serArrTail uc (d + 1) xs ++ (nlind uc d ++ (']' :: rest)))))
              = serVal uc (d + 1) x ++ (serArrTail uc (d + 1) xs
                  ++ (nlind uc d ++ (']' :: rest))) := by
            rw [skipWs_all (nlind_ws _ _), hsx, List.cons_append, skipWs_nonws hcws,
                ← List.cons_append, ← hsx]
          rw [hskip]
          split
          · rename_i heq
            rw [hsx, List.cons_append] at heq
            injection heq with h1 h2
            exact absurd h1 hcbr
          · rw [rt_items x xs uc (d + 1) d f rest (by rw [hlen] at hf; omega)]
  | .obj [], uc, d, fuel, rest, hf, _ => by
      cases fuel with
      | zero => exact absurd hf (Nat.not_lt_zero _)
      | succ f =>
          have harg : serVal uc d (.obj []) ++ rest = '{' :: ('}' :: rest) := rfl
          rw [harg, parseVal_obj_dispatch]
          rw [skipWs_nonws (by decide)]
          rfl
  | .obj ((k, v) :: ms), uc, d, fuel, rest, hf, _ => by
      cases fuel with
      | zero => exact absurd hf (Nat.not_lt_zero _)
      | succ f =>
          have harg : serVal uc d (.obj ((k, v) :: ms)) ++ rest
              = '{' :: (nlind uc (d + 1) ++ (serStr k ++ (colonSep uc ++ (serVal uc (d + 1) v
                  ++ (serObjTail uc (d + 1) ms ++ (nlind uc d ++ ('}' :: rest))))))) := by
            show ('{' :: (nlind uc (d + 1) ++ (serStr k ++ (colonSep uc ++ (serVal uc (d + 1) v
                  ++ (serObjTail uc (d + 1) ms ++ (nlind uc d ++ ['}']))))))) ++ rest = _
            simp [List.append_assoc]
          have hlen : (serVal uc d (.obj ((k, v) :: ms))).length
              = 1 + ((nlind uc (d + 1)).length + ((serStr k).length + ((colonSep uc).length
                + ((serVal uc (d + 1) v).length + ((serObjTail uc (d + 1) ms).length
                  + ((nlind uc d).length + 1)))))) := by
            show ('{' :: (nlind uc (d + 1) ++ (serStr k ++ (colonSep uc ++ (serVal uc (d + 1) v
                  ++ (serObjTail uc (d + 1) ms ++ (nlind uc d ++ ['}']))))))).length = _
            simp only [List.length_cons, List.length_append, List.length_nil]
            omega
          rw [harg, parseVal_obj_dispatch]
          have hstrk : serStr k ++ (colonSep uc ++ (serVal uc (d + 1) v
              ++ (serObjTail uc (d + 1) ms ++ (nlind uc d ++ ('}' :: rest)))))
              = '"' :: (k.data.flatMap escChar ++ ('"' :: (colonSep uc ++ (serVal uc (d + 1) v
                  ++ (serObjTail uc (d + 1) ms ++ (nlind uc d ++ ('}' :: rest))))))) := by
            simp [serStr]
          have hskip : skipWs (nlind uc (d + 1) ++ (serStr k ++ (colonSep uc
              ++ (serVal uc (d + 1) v ++ (serObjTail uc (d + 1) ms
                ++ (nlind uc d ++ ('}' :: rest)))))))
              = serStr k ++ (colonSep uc ++ (serVal uc (d + 1) v
                  ++ (serObjTail uc (d + 1) ms ++ (nlind uc d ++ ('}' :: rest))))) := by
            rw [skipWs_all (nlind_ws _ _), hstrk, skipWs_nonws (by decide), ← hstrk]
          rw [hskip]
          split
          · rename_i heq
            rw [hstrk] at heq
            cases heq
          · rw [rt_entries k v ms uc (d + 1) d f rest (by rw [hlen] at hf; omega)]
termination_by v _ _ _ _ _ _ => sizeOf v

theorem rt_items : ∀ (x : JValue) (xs : List JValue) (uc : Bool) (d dc fuel : Nat)
    (rest : List Char),
    (serVal uc d x).length + (serArrTail uc d xs).length + 1 < fuel →
    parseItems fuel (serVal uc d x ++ (serArrTail uc d xs ++ (nlind uc dc ++ (']' :: rest))))
      = some (x :: xs, rest)
  | x, [], uc, d, dc, fuel, rest, hf => by
      cases fuel with
      | zero => exact absurd hf (Nat.not_lt_zero _)
      | succ f =>
          rw [parseItems_succ]
          have harg : serVal uc d x ++ (serArrTail uc d [] ++ (nlind uc dc ++ (']' :: rest)))
              = serVal uc d x ++ (nlind uc dc ++ (']' :: rest)) := by
            show serVal uc d x ++ ([] ++ (nlind uc dc ++ (']' :: rest))) = _
            simp
          rw [harg, rt_val x uc d f (nlind uc dc ++ (']' :: rest))
              (by simp only [serArrTail, List.length_nil] at hf; omega)
              (notDigitStart_nlind uc dc _ (by rfl))]
          have hskip : skipWs (nlind uc dc ++ (']' :: rest)) = ']' :: rest := by
            rw [skipWs_all (nlind_ws _ _), skipWs_nonws (by decide)]
          show (match skipWs (nlind uc dc ++ (']' :: rest)) with
                | ',' :: r' =>
                    match parseItems f r' with
                    | some (vs, r'') => some (x :: vs, r'')
                    | none => none
                | ']' :: r' => some ([x], r')
                | _ => none) = some ([x], rest)
          rw [hskip]
          rfl
  | x, x' :: xs', uc, d, dc, fuel, rest, hf => by
      cases fuel with
      | zero => exact absurd hf (Nat.not_lt_zero _)
      | succ f =>
          rw [parseItems_succ]
          have hst : serArrTail uc d (x' :: xs')
              = ',' :: (nlind uc d ++ (serVal uc d x' ++ serArrTail uc d xs')) := rfl
          have hndsx : notDigitStart (serArrTail uc d (x' :: xs')
              ++ (nlind uc dc ++ (']' :: rest))) = true := by
            rw [hst]
            rfl
          have hlenst : (serArrTail uc d (x' :: xs')).length
              = 1 + ((nlind uc d).length + ((serVal uc d x').length
                + (serArrTail uc d xs').length)) := by
            rw [hst]
            simp only [List.length_cons, List.length_append]
            omega
          rw [rt_val x uc d f _ (by omega) hndsx]
          have hre : serArrTail uc d (x' :: xs') ++ (nlind uc dc ++ (']' :: rest))
              = ',' :: (nlind uc d ++ (serVal uc d x' ++ (serArrTail uc d xs'
                  ++ (nlind uc dc ++ (']' :: rest))))) := by
            rw [hst]
            simp [List.append_assoc]
          show (match skipWs (serArrTail uc d (x' :: xs') ++ (nlind uc dc ++ (']' :: rest))) with
                | ',' :: r' =>
                    match parseItems f r' with
                    | some (vs, r'') => some (x :: vs, r'')
                    | none => none
                | ']' :: r' => some ([x], r')
                | _ => none) = some (x :: x' :: xs', rest)
          rw [hre, skipWs_nonws (by decide)]
          split
          · rename_i heq
            injection heq with h1 h2
            subst h2
            rw [parseItems_ws f (nlind_ws uc d) _]
            rw [rt_items x' xs' uc d dc f rest (by rw [hlenst] at hf; omega)]
          · rename_i heq
            cases heq
          · rename_i hno heq
            exact ((hno (nlind uc d ++ (serVal uc d x' ++ (serArrTail uc d xs'
              ++ (nlind uc dc ++ (']' :: rest))))) rfl).elim)
termination_by x xs _ _ _ _ _ _ => 1 + sizeOf x + sizeOf xs

theorem rt_entries : ∀ (k : String) (v : JValue) (ms : List (String × JValue)) (uc : Bool)
    (d dc fuel : Nat) (rest : List Char),
    (serStr k).length + (serVal uc d v).length + (serObjTail uc d ms).length + 1 < fuel →
    parseEntries fuel (serStr k ++ (colonSep uc ++ (serVal uc d v
        ++ (serObjTail uc d ms ++ (nlind uc dc ++ ('}' :: rest))))))
      = some ((k, v) :: ms, rest)
  | k, v, [], uc, d, dc, fuel, rest, hf => by
      cases fuel with
      | zero => exact absurd hf (Nat.not_lt_zero _)
      | succ f =>
          have harg : serStr k ++ (colonSep uc ++ (serVal uc d v
              ++ (serObjTail uc d [] ++ (nlind uc dc ++ ('}' :: rest)))))
              = '"' :: (k.data.flatMap escChar ++ ('"' :: (colonSep uc ++ (serVal uc d v
                  ++ (serObjTail uc d [] ++ (nlind uc dc ++ ('}' :: rest))))))) := by
            simp [serStr]
          rw [harg, parseEntries_succ, skipWs_nonws (by decide)]
          split
          · rename_i r heq
            injection heq with h1 h2
            subst h2
            rw [parseStrAux_chunks k.data _ [] _ (by
              have h1 := flatMap_escChar_length k.data
              simp only [List.length_append, List.length_cons]
              omega)]
            show (match skipWs (colonSep uc ++ (serVal uc d v
                    ++ (serObjTail uc d [] ++ (nlind uc dc ++ ('}' :: rest))))) with
                  | ':' :: r2 =>
                      match parseVal f r2 with
                      | none => none
                      | some (w, r3) =>
                          match skipWs r3 with
                          | ',' :: r4 =>
                              match parseEntries f r4 with
                              | some (es, r5) => some ((k, w) :: es, r5)
                              | none => none
                          | '}' :: r4 => some ([(k, w)], r4)
                          | _ => none
                  | _ => none) = some ((k, v) :: [], rest)
            rw [colonSep_cons uc, skipWs_nonws (by decide)]
            split
            · rename_i r2 heq3
              injection heq3 with h3 h4
              subst h4
              rw [parseVal_ws f (colWs_ws uc) _]
              have hnd : notDigitStart (serObjTail uc d []
                  ++ (nlind uc dc ++ ('}' :: rest))) = true := by
                show notDigitStart ([] ++ (nlind uc dc ++ ('}' :: rest))) = true
                simp only [List.nil_append]
                exact notDigitStart_nlind uc dc _ (by rfl)
              rw [rt_val v uc d f _ (by omega) hnd]
              show (match skipWs (serObjTail uc d [] ++ (nlind uc dc ++ ('}' :: rest))) with
                    | ',' :: r4 =>
                        match parseEntries f r4 with
                        | some (es, r5) => some ((k, v) :: es, r5)
                        | none => none
                    | '}' :: r4 => some ([(k, v)], r4)
                    | _ => none) = some ((k, v) :: [], rest)
              have hskip : skipWs (serObjTail uc d [] ++ (nlind uc dc ++ ('}' :: rest)))
                  = '}' :: rest := by
                show skipWs ([] ++ (nlind uc dc ++ ('}' :: rest))) = _
                simp only [List.nil_append]
                rw [skipWs_all (nlind_ws _ _), skipWs_nonws (by decide)]
              rw [hskip]
              rfl
            · rename_i hno
              exact ((hno ((if uc then [] else [' ']) ++ (serVal uc d v
                ++ (serObjTail uc d [] ++ (nlind uc dc ++ ('}' :: rest))))) rfl).elim)
          · rename_i hno
            exact ((hno (k.data.flatMap escChar ++ ('"' :: (colonSep uc ++ (serVal uc d v
              ++ (serObjTail uc d [] ++ (nlind uc dc ++ ('}' :: rest))))))) rfl).elim)
  | k, v, (k', v') :: ms', uc, d, dc, fuel, rest, hf => by
      cases fuel with
      | zero => exact absurd hf (Nat.not_lt_zero _)
      | succ f =>
          have harg : serStr k ++ (colonSep uc ++ (serVal uc d v
              ++ (serObjTail uc d ((k', v') :: ms') ++ (nlind uc dc ++ ('}' :: rest)))))
              = '"' :: (k.data.flatMap escChar ++ ('"' :: (colonSep uc ++ (serVal uc d v
                  ++ (serObjTail uc d ((k', v') :: ms')
                      ++ (nlind uc dc ++ ('}' :: rest))))))) := by
            simp [serStr]
          rw [harg, parseEntries_succ, skipWs_nonws (by decide)]
          split
          · rename_i r heq
            injection heq with h1 h2
            subst h2
            rw [parseStrAux_chunks k.data _ [] _ (by
              have h1 := flatMap_escChar_length k.data
              simp only [List.length_append, List.length_cons]
              omega)]
            show (match skipWs (colonSep uc ++ (serVal uc d v
                    ++ (serObjTail uc d ((k', v') :: ms')
                        ++ (nlind uc dc ++ ('}' :: rest))))) with
                  | ':' :: r2 =>
                      match parseVal f r2 with
                      | none => none
                      | some (w, r3) =>
                          match skipWs r3 with
                          | ',' :: r4 =>
                              match parseEntries f r4 with
                              | some (es, r5) => some ((k, w) :: es, r5)
                              | none => none
                          | '}' :: r4 => some ([(k, w)], r4)
                          | _ => none
                  | _ => none) = some ((k, v) :: ((k', v') :: ms'), rest)
            rw [colonSep_cons uc, skipWs_nonws (by decide)]
            split
            · rename_i r2 heq3
              injection heq3 with h3 h4
              subst h4
              rw [parseVal_ws f (colWs_ws uc) _]
              have hnd : notDigitStart (serObjTail uc d ((k', v') :: ms')
                  ++ (nlind uc dc ++ ('}' :: rest))) = true := rfl
              rw [rt_val v uc d f _ (by omega) hnd]
              show (match skipWs (serObjTail uc d ((k', v') :: ms')
                      ++ (nlind uc dc ++ ('}' :: rest))) with
                    | ',' :: r4 =>
                        match parseEntries f r4 with
                        | some (es, r5) => some ((k, v) :: es, r5)
                        | none => none
                    | '}' :: r4 => some ([(k, v)], r4)
                    | _ => none) = some ((k, v) :: ((k', v') :: ms'), rest)
              have hot : serObjTail uc d ((k', v') :: ms')
                  = ',' :: (nlind uc d ++ (serStr k' ++ (colonSep uc ++ (serVal uc d v'
                      ++ serObjTail uc d ms')))) := rfl
              have hre : serObjTail uc d ((k', v') :: ms') ++ (nlind uc dc ++ ('}' :: rest))
                  = ',' :: (nlind uc d ++ (serStr k' ++ (colonSep uc ++ (serVal uc d v'
                      ++ (serObjTail uc d ms' ++ (nlind uc dc ++ ('}' :: rest))))))) := by
                rw [hot]
                simp [List.append_assoc]
              have hlenot : (serObjTail uc d ((k', v') :: ms')).length
                  = 1 + ((nlind uc d).length + ((serStr k').length + ((colonSep uc).length
                    + ((serVal uc d v').length + (serObjTail uc d ms').length)))) := by
                rw [hot]
                simp only [List.length_cons, List.length_append]
                omega
              rw [hre, skipWs_nonws (by decide)]
              split
              · rename_i heq5
                injection heq5 with h5 h6
                subst h6
                rw [parseEntries_ws f (nlind_ws uc d) _]
                rw [rt_entries k' v' ms' uc d dc f rest (by rw [hlenot] at hf; omega)]
              · rename_i heq5
                cases heq5
              · rename_i hno heq5
                exact ((hno (nlind uc d ++ (serStr k' ++ (colonSep uc ++ (serVal uc d v'
                  ++ (serObjTail uc d ms' ++ (nlind uc dc ++ ('}' :: rest)))))))
                  rfl).elim)
            · rename_i hno
              exact ((hno ((if uc then [] else [' ']) ++ (serVal uc d v
                ++ (serObjTail uc d ((k', v') :: ms')
                    ++ (nlind uc dc ++ ('}' :: rest))))) rfl).elim)
          · rename_i hno
            exact ((hno (k.data.flatMap escChar ++ ('"' :: (colonSep uc ++ (serVal uc d v
              ++ (serObjTail uc d ((k', v') :: ms')
                  ++ (nlind uc dc ++ ('}' :: rest))))))) rfl).elim)
termination_by k v ms _ _ _ _ _ _ => 1 + sizeOf v + sizeOf ms

end

/-- Serializing any value (at either density) and parsing it back recovers
the value: soundness of the serializer/parser pair. -/
theorem serialize_roundtrip (v : JValue) (uc : Bool) :
    json_loads (_serialize_json v uc) = some v := by
  have hp : parseVal ((serVal uc 0 v).length + 1) (serVal uc 0 v) = some (v, []) := by
    have h2 := rt_val v uc 0 ((serVal uc 0 v).length + 1) [] (by omega) (by rfl)
    rwa [List.append_nil] at h2
  show (match parseVal ((serVal uc 0 v).length + 1) (serVal uc 0 v) with
        | some (w, rest) => if (skipWs rest).isEmpty then some w else none
        | none => none) = some v
  rw [hp]
  rfl

/-- The pagination-envelope contract as the specification words it (for the
paging formatters, where the true total may be unknown): field-by-field
values of the envelope object. -/
def envelopeSpec (items : List JValue) (total : Option Int) (page per_page : Int)
    (o : JObject) : Prop :=
  dget o "items" = some (.arr items) ∧
  dget o "count" = some (.int items.length) ∧
  dget o "offset" = some (.int ((page - 1) * per_page)) ∧
  dget o "has_more" = some (.bool ((items.length : Int) == per_page)) ∧
  dget o "next_page"
    = some (if (items.length : Int) == per_page then .int (page + 1) else .null) ∧
  dget o "next_offset"
    = some (if (items.length : Int) == per_page then .int (page * per_page) else .null) ∧
  dget o "total" = some (match total with | none => .null | some t => .int t)

/-- C7: the tickets, users and organizations JSON formatters emit (as a
parseable JSON document) the pagination envelope with `count = len(items)`,
`offset = (page-1)*per_page`, the `has_more = (len(items) == per_page)`
heuristic, `next_page`/`next_offset` only when `has_more`, and a null
`total` when no true total is supplied. -/
theorem claim_C7_pagination_envelope (tickets users orgs : List JValue)
    (total : Option Int) (page per_page : Int) :
    (json_loads (_format_tickets_json tickets total page per_page)
        = some (.obj (_format_tickets_json_obj tickets total page per_page))
      ∧ envelopeSpec tickets total page per_page
          (_format_tickets_json_obj tickets total page per_page))
    ∧ (json_loads (_format_users_json users total page per_page)
        = some (.obj (_format_users_json_obj users total page per_page))
      ∧ envelopeSpec users total page per_page
          (_format_users_json_obj users total page per_page))
    ∧ (json_loads (_format_organizations_json orgs total page per_page)
        = some (.obj (_format_organizations_json_obj orgs total page per_page))
      ∧ envelopeSpec orgs total page per_page
          (_format_organizations_json_obj orgs total page per_page)) := by
  refine ⟨⟨serialize_roundtrip _ false, ?_⟩, ⟨serialize_roundtrip _ false, ?_⟩,
    ⟨serialize_roundtrip _ false, ?_⟩⟩ <;>
  · refine ⟨?_, ?_, ?_, ?_, ?_, ?_, ?_⟩ <;>
      simp [dget, _format_tickets_json_obj, _format_users_json_obj,
        _format_organizations_json_obj]

/-- C8: `_format_list_json` emits (as a parseable JSON document) the
complete reference list sorted ascending by `id`, with full-page pagination:
`total = count = per_page = len(items)`, `page = 1`, `offset = 0`,
`has_more = false`, `next_page = null`; and ids `3, 1, 2` come out ordered
`1, 2, 3`. -/
theorem claim_C8_reference_list_envelope (items : List RefItem) :
    json_loads (_format_list_json items) = some (.obj (_format_list_json_obj items))
    ∧ (_format_list_sorted items).Perm items
    ∧ List.Pairwise (fun a b => a.id ≤ b.id) (_format_list_sorted items)
    ∧ dget (_format_list_json_obj items) "items"
        = some (.arr ((_format_list_sorted items).map RefItem.dump))
    ∧ dget (_format_list_json_obj items) "total" = some (.int items.length)
    ∧ dget (_format_list_json_obj items) "count" = some (.int items.length)
    ∧ dget (_format_list_json_obj items) "page" = some (.int 1)
    ∧ dget (_format_list_json_obj items) "per_page" = some (.int items.length)
    ∧ dget (_format_list_json_obj items) "offset" = some (.int 0)
    ∧ dget (_format_list_json_obj items) "has_more" = some (.bool false)
    ∧ dget (_format_list_json_obj items) "next_page" = some .null
    ∧ (_format_list_sorted [⟨3, .null⟩, ⟨1, .null⟩, ⟨2, .null⟩]).map RefItem.id
        = [1, 2, 3] := by
  have hperm : (_format_list_sorted items).Perm items :=
    List.mergeSort_perm items (fun a b => decide (a.id ≤ b.id))
  have hlen : (_format_list_sorted items).length = items.length := hperm.length_eq
  have hsorted : List.Pairwise (fun a b => a.id ≤ b.id) (_format_list_sorted items) := by
    have h := @List.sorted_mergeSort RefItem
      (fun a b : RefItem => decide (a.id ≤ b.id))
      (fun a b c hab hbc => by
        simp only [decide_eq_true_eq] at hab hbc ⊢
        omega)
      (fun a b => by
        simp only [Bool.or_eq_true, decide_eq_true_eq]
        omega)
      items
    exact h.imp (fun hd => of_decide_eq_true hd)
  refine ⟨serialize_roundtrip _ false, hperm, hsorted, ?_, ?_, ?_, ?_, ?_, ?_, ?_, ?_, ?_⟩
  · simp [dget, _format_list_json_obj]
  · simp [dget, _format_list_json_obj, hlen]
  · simp [dget, _format_list_json_obj, hlen]
  · simp [dget, _format_list_json_obj]
  · simp [dget, _format_list_json_obj, hlen]
  · simp [dget, _format_list_json_obj]
  · simp [dget, _format_list_json_obj]
  · simp [dget, _format_list_json_obj]
  · simp [_format_list_sorted, List.mergeSort]

/-! ## The JSON truncation path -/

/-- The `"_meta"` member, if present, is an object — exactly the objects on
which `obj.setdefault("_meta", {}).update(...)` does not raise. -/
def metaOk (o : JObject) : Bool :=
  match dget o "_meta" with
  | some (.obj _) => true
  | some _ => false
  | none => true

theorem dget_append_left (ms ns : JObject) (k : String) (v : JValue)
    (h : dget ms k = some v) : dget (ms ++ ns) k = some v := by
  induction ms with
  | nil => simp [dget] at h
  | cons kv rest ih =>
      obtain ⟨k0, v0⟩ := kv
      by_cases h0 : k0 = k
      · simp only [dget, List.cons_append, if_pos h0] at h ⊢
        exact h
      · simp only [dget, List.cons_append, if_neg h0] at h ⊢
        exact ih h

/-- The pop loop only ever rewrites the `"items"` member. -/
theorem popGo_other (obj : JObject) (limit : Nat) (uc : Bool) (k : String)
    (hk : k ≠ "items") :
    ∀ (fuel : Nat) (its : List JValue),
      dget (popGo obj limit uc fuel its) k = dget obj k := by
  intro fuel
  induction fuel with
  | zero =>
      intro its
      exact dget_dset_other _ _ _ _ (fun h => hk h.symm)
  | succ f ih =>
      intro its
      simp only [popGo]
      split
      · exact ih its.dropLast
      · exact dget_dset_other _ _ _ _ (fun h => hk h.symm)

/-- The pop loop stops only when the serialization fits or `items` is empty. -/
theorem popGo_post (obj : JObject) (limit : Nat) (uc : Bool) :
    ∀ (fuel : Nat) (its : List JValue), its.length ≤ fuel →
      (serVal uc 0 (.obj (popGo obj limit uc fuel its))).length ≤ limit
      ∨ dget (popGo obj limit uc fuel its) "items" = some (.arr []) := by
  intro fuel
  induction fuel with
  | zero =>
      intro its h
      have hnil : its = [] := List.eq_nil_of_length_eq_zero (Nat.le_zero.mp h)
      subst hnil
      exact Or.inr (dget_dset_self _ _ _)
  | succ f ih =>
      intro its h
      simp only [popGo]
      split
      · exact ih its.dropLast (by simp only [List.length_dropLast]; omega)
      · rename_i hc
        rcases not_and_or.mp hc with h1 | h2
        · have hnil : its = [] := by
            by_contra hne
            exact h1 (by simpa using List.length_pos.mpr hne |>.ne')
          subst hnil
          exact Or.inr (dget_dset_self _ _ _)
        · exact Or.inl (by omega)

theorem popLoop_other (obj : JObject) (its : List JValue) (limit : Nat) (uc : Bool)
    (k : String) (hk : k ≠ "items") :
    dget (popLoop obj its limit uc) k = dget obj k :=
  popGo_other obj limit uc k hk its.length its

theorem truncJson_spec (content : String) (o : JObject) (limit : Nat)
    (hmeta : metaOk o = true) :
    ∃ o3 : JObject,
      _truncate_json_response content o limit
        = some (_serialize_json (.obj o3) (decide (6 * limit < 5 * content.data.length)))
      ∧ (∃ m, dget o3 "_meta"
          = some (.obj (dictUpdate m (metaFields content.data.length limit))))
      ∧ (∀ its, dget o "items" = some (.arr its) →
          (serVal (decide (6 * limit < 5 * content.data.length)) 0 (.obj o3)).length ≤ limit
          ∨ dget o3 "items" = some (.arr [])) := by
  rcases hio : dget o "items" with _ | v
  · rcases hm : dget o "_meta" with _ | mv
    · refine ⟨o ++ [("_meta", (.obj (dictUpdate [] (metaFields content.data.length limit))))],
        ?_, ⟨[], ?_⟩, ?_⟩
      · simp only [_truncate_json_response, hio, hm, dget_append_of_none _ _ _ hio]
        rfl
      · rw [dget_append_of_none _ _ _ hm]
        simp [dget]
      · intro its hits
        exact Option.noConfusion hits
    · cases mv
      case obj m =>
        refine ⟨dset o "_meta" (.obj (dictUpdate m (metaFields content.data.length limit))),
          ?_, ⟨m, ?_⟩, ?_⟩
        · have hA : dget (dset o "_meta"
              (.obj (dictUpdate m (metaFields content.data.length limit)))) "items"
              = none := by
            rw [dget_dset_other _ _ _ _ (by decide)]
            exact hio
          simp only [_truncate_json_response, hio, hm, hA]
        · exact dget_dset_self _ _ _
        · intro its hits
          exact Option.noConfusion hits
      all_goals simp [metaOk, hm] at hmeta
  · cases v
    case arr its0 =>
      rcases hm : dget o "_meta" with _ | mv
      · have hB : dget (dset o "items"
            (.arr (its0.take (_find_max_items_for_limit o its0 limit (decide (6 * limit < 5 * content.data.length)))))) "_meta"
            = none := by
          rw [dget_dset_other _ _ _ _ (by decide)]
          exact hm
        have hA : dget (dset o "items"
              (.arr (its0.take (_find_max_items_for_limit o its0 limit (decide (6 * limit < 5 * content.data.length)))))
              ++ [("_meta", (.obj (dictUpdate [] (metaFields content.data.length limit))))]) "items"
            = some (.arr (its0.take (_find_max_items_for_limit o its0 limit (decide (6 * limit < 5 * content.data.length))))) :=
          dget_append_left _ _ _ _ (dget_dset_self _ _ _)
        refine ⟨popLoop
            (dset o "items" (.arr (its0.take (_find_max_items_for_limit o its0 limit (decide (6 * limit < 5 * content.data.length)))))
              ++ [("_meta", (.obj (dictUpdate [] (metaFields content.data.length limit))))])
            (its0.take (_find_max_items_for_limit o its0 limit (decide (6 * limit < 5 * content.data.length)))) limit (decide (6 * limit < 5 * content.data.length)),
          ?_, ⟨[], ?_⟩, ?_⟩
        · simp only [_truncate_json_response, hio, hB, hA]
        · rw [popLoop_other _ _ _ _ "_meta" (by decide), dget_append_of_none _ _ _ hB]
          simp [dget]
        · intro its hits
          injection hits with h2
          injection h2 with h3
          subst h3
          exact popGo_post _ limit (decide (6 * limit < 5 * content.data.length)) _ _ (le_refl _)
      · cases mv
        case obj m =>
          have hB : dget (dset o "items"
              (.arr (its0.take (_find_max_items_for_limit o its0 limit (decide (6 * limit < 5 * content.data.length)))))) "_meta"
              = some (.obj m) := by
            rw [dget_dset_other _ _ _ _ (by decide)]
            exact hm
          have hA : dget (dset (dset o "items"
                (.arr (its0.take (_find_max_items_for_limit o its0 limit (decide (6 * limit < 5 * content.data.length))))))
                "_meta" (.obj (dictUpdate m (metaFields content.data.length limit)))) "items"
              = some (.arr (its0.take (_find_max_items_for_limit o its0 limit (decide (6 * limit < 5 * content.data.length))))) := by
            rw [dget_dset_other _ _ _ _ (by decide)]
            exact dget_dset_self _ _ _
          refine ⟨popLoop
              (dset (dset o "items"
                  (.arr (its0.take (_find_max_items_for_limit o its0 limit (decide (6 * limit < 5 * content.data.length))))))
                "_meta" (.obj (dictUpdate m (metaFields content.data.length limit))))
              (its0.take (_find_max_items_for_limit o its0 limit (decide (6 * limit < 5 * content.data.length)))) limit (decide (6 * limit < 5 * content.data.length)),
            ?_, ⟨m, ?_⟩, ?_⟩
          · simp only [_truncate_json_response, hio, hB, hA]
          · rw [popLoop_other _ _ _ _ "_meta" (by decide)]
            exact dget_dset_self _ _ _
          · intro its hits
            injection hits with h2
            injection h2 with h3
            subst h3
            exact popGo_post _ limit (decide (6 * limit < 5 * content.data.length)) _ _ (le_refl _)
        all_goals simp [metaOk, hm] at hmeta
    case null =>
      rcases hm : dget o "_meta" with _ | mv
      · refine ⟨o ++ [("_meta", (.obj (dictUpdate [] (metaFields content.data.length limit))))],
          ?_, ⟨[], ?_⟩, ?_⟩
        · have hA : dget (o ++ [("_meta", (.obj (dictUpdate [] (metaFields content.data.length limit))))]) "items" = some (.null) :=
            dget_append_left _ _ _ _ hio
          simp only [_truncate_json_response, hio, hm, hA]
        · rw [dget_append_of_none _ _ _ hm]
          simp [dget]
        · intro its hits
          injection hits with h2
          cases h2
      · cases mv
        case obj m =>
          refine ⟨dset o "_meta" (.obj (dictUpdate m (metaFields content.data.length limit))),
            ?_, ⟨m, ?_⟩, ?_⟩
          · have hA : dget (dset o "_meta"
                (.obj (dictUpdate m (metaFields content.data.length limit)))) "items"
                = some (.null) := by
              rw [dget_dset_other _ _ _ _ (by decide)]
              exact hio
            simp only [_truncate_json_response, hio, hm, hA]
          · exact dget_dset_self _ _ _
          · intro its hits
            injection hits with h2
            cases h2
        all_goals simp [metaOk, hm] at hmeta
    case bool b =>
      rcases hm : dget o "_meta" with _ | mv
      · refine ⟨o ++ [("_meta", (.obj (dictUpdate [] (metaFields content.data.length limit))))],
          ?_, ⟨[], ?_⟩, ?_⟩
        · have hA : dget (o ++ [("_meta", (.obj (dictUpdate [] (metaFields content.data.length limit))))]) "items" = some (.bool b) :=
            dget_append_left _ _ _ _ hio
          simp only [_truncate_json_response, hio, hm, hA]
        · rw [dget_append_of_none _ _ _ hm]
          simp [dget]
        · intro its hits
          injection hits with h2
          cases h2
      · cases mv
        case obj m =>
          refine ⟨dset o "_meta" (.obj (dictUpdate m (metaFields content.data.length limit))),
            ?_, ⟨m, ?_⟩, ?_⟩
          · have hA : dget (dset o "_meta"
                (.obj (dictUpdate m (metaFields content.data.length limit)))) "items"
                = some (.bool b) := by
              rw [dget_dset_other _ _ _ _ (by decide)]
              exact hio
            simp only [_truncate_json_response, hio, hm, hA]
          · exact dget_dset_self _ _ _
          · intro its hits
            injection hits with h2
            cases h2
        all_goals simp [metaOk, hm] at hmeta
    case int i =>
      rcases hm : dget o "_meta" with _ | mv
      · refine ⟨o ++ [("_meta", (.obj (dictUpdate [] (metaFields content.data.length limit))))],
          ?_, ⟨[], ?_⟩, ?_⟩
        · have hA : dget (o ++ [("_meta", (.obj (dictUpdate [] (metaFields content.data.length limit))))]) "items" = some (.int i) :=
            dget_append_left _ _ _ _ hio
          simp only [_truncate_json_response, hio, hm, hA]
        · rw [dget_append_of_none _ _ _ hm]
          simp [dget]
        · intro its hits
          injection hits with h2
          cases h2
      · cases mv
        case obj m =>
          refine ⟨dset o "_meta" (.obj (dictUpdate m (metaFields content.data.length limit))),
            ?_, ⟨m, ?_⟩, ?_⟩
          · have hA : dget (dset o "_meta"
                (.obj (dictUpdate m (metaFields content.data.length limit)))) "items"
                = some (.int i) := by
              rw [dget_dset_other _ _ _ _ (by decide)]
              exact hio
            simp only [_truncate_json_response, hio, hm, hA]
          · exact dget_dset_self _ _ _
          · intro its hits
            injection hits with h2
            cases h2
        all_goals simp [metaOk, hm] at hmeta
    case str s1 =>
      rcases hm : dget o "_meta" with _ | mv
      · refine ⟨o ++ [("_meta", (.obj (dictUpdate [] (metaFields content.data.length limit))))],
          ?_, ⟨[], ?_⟩, ?_⟩
        · have hA : dget (o ++ [("_meta", (.obj (dictUpdate [] (metaFields content.data.length limit))))]) "items" = some (.str s1) :=
            dget_append_left _ _ _ _ hio
          simp only [_truncate_json_response, hio, hm, hA]
        · rw [dget_append_of_none _ _ _ hm]
          simp [dget]
        · intro its hits
          injection hits with h2
          cases h2
      · cases mv
        case obj m =>
          refine ⟨dset o "_meta" (.obj (dictUpdate m (metaFields content.data.length limit))),
            ?_, ⟨m, ?_⟩, ?_⟩
          · have hA : dget (dset o "_meta"
                (.obj (dictUpdate m (metaFields content.data.length limit)))) "items"
                = some (.str s1) := by
              rw [dget_dset_other _ _ _ _ (by decide)]
              exact hio
            simp only [_truncate_json_response, hio, hm, hA]
          · exact dget_dset_self _ _ _
          · intro its hits
            injection hits with h2
            cases h2
        all_goals simp [metaOk, hm] at hmeta
    case obj ms =>
      rcases hm : dget o "_meta" with _ | mv
      · refine ⟨o ++ [("_meta", (.obj (dictUpdate [] (metaFields content.data.length limit))))],
          ?_, ⟨[], ?_⟩, ?_⟩
        · have hA : dget (o ++ [("_meta", (.obj (dictUpdate [] (metaFields content.data.length limit))))]) "items" = some (.obj ms) :=
            dget_append_left _ _ _ _ hio
          simp only [_truncate_json_response, hio, hm, hA]
        · rw [dget_append_of_none _ _ _ hm]
          simp [dget]
        · intro its hits
          injection hits with h2
          cases h2
      · cases mv
        case obj m =>
          refine ⟨dset o "_meta" (.obj (dictUpdate m (metaFields content.data.length limit))),
            ?_, ⟨m, ?_⟩, ?_⟩
          · have hA : dget (dset o "_meta"
                (.obj (dictUpdate m (metaFields content.data.length limit)))) "items"
                = some (.obj ms) := by
              rw [dget_dset_other _ _ _ _ (by decide)]
              exact hio
            simp only [_truncate_json_response, hio, hm, hA]
          · exact dget_dset_self _ _ _
          · intro its hits
            injection hits with h2
            cases h2
        all_goals simp [metaOk, hm] at hmeta

theorem truncate_response_json (content : String) (limit : Nat) (o : JObject)
    (hover : ¬ content.data.length ≤ limit)
    (hshape : jsonShaped content = true)
    (hparse : json_loads content = some (.obj o)) :
    truncate_response content limit
      = match _truncate_json_response content o limit with
        | some s => s
        | none => _truncate_text_response content limit := by
  simp only [truncate_response, if_neg hover, if_pos hshape, hparse]

/-- C2 (amended): for JSON-shaped content that parses as an object whose
`"_meta"` member (if any) is itself an object, the truncated response always
parses as JSON.  (The unamended claim fails when `"_meta"` holds a
non-object: the truncator raises and the text fallback emits non-JSON; see
the counterexample.) -/
theorem claim_C2_json_validity (content : String) (limit : Nat) (o : JObject)
    (hshape : jsonShaped content = true)
    (hparse : json_loads content = some (.obj o))
    (hitems : ∃ its, dget o "items" = some (.arr its))
    (hmeta : metaOk o = true) :
    ∃ v, json_loads (truncate_response content limit) = some v := by
  by_cases hlen : content.data.length ≤ limit
  · have hid : truncate_response content limit = content := by
      simp only [truncate_response, if_pos hlen]
    rw [hid, hparse]
    exact ⟨.obj o, rfl⟩
  · obtain ⟨o3, heq, _, _⟩ := truncJson_spec content o limit hmeta
    have htr := truncate_response_json content limit o hlen hshape hparse
    rw [heq] at htr
    have htr2 : truncate_response content limit
        = _serialize_json (.obj o3) (decide (6 * limit < 5 * content.data.length)) := by
      rw [htr]
    rw [htr2]
    exact ⟨.obj o3, serialize_roundtrip _ _⟩

/-- Concrete JSON object whose `"_meta"` member is the number `0`. -/
def c2bad : String := "\x7b\x22items\x22:[1,2,3,4,5,6,7,8,9],\x22_meta\x22:0\x7d"

/-- The parse of `c2bad`. -/
def c2badObj : JObject :=
  [("items", .arr [.int 1, .int 2, .int 3, .int 4, .int 5, .int 6, .int 7, .int 8, .int 9]),
   ("_meta", .int 0)]

/-- C2 counterexample: `c2bad` is JSON-shaped, parses as an object with a
non-empty `"items"` array, and exceeds the limit 10, yet
`truncate_response` returns a string that does not parse as JSON (the
`"_meta"` member is a number, so the JSON truncator raises and the text
fallback emits a JSON prefix followed by a plain-text warning). -/
theorem claim_C2_counterexample :
    jsonShaped c2bad = true
    ∧ json_loads c2bad = some (.obj c2badObj)
    ∧ dget c2badObj "items"
        = some (.arr [.int 1, .int 2, .int 3, .int 4, .int 5, .int 6, .int 7, .int 8, .int 9])
    ∧ 10 < c2bad.data.length
    ∧ json_loads (truncate_response c2bad 10) = none := by
  exact ⟨rfl, rfl, rfl, by decide, rfl⟩

/-- Concrete well-behaved envelope for the C2 witness. -/
def c2ok : String := "\x7b\x22items\x22:[1,2,3,4,5,6,7,8,9]\x7d"

/-- The parse of `c2ok`. -/
def c2okObj : JObject :=
  [("items", .arr [.int 1, .int 2, .int 3, .int 4, .int 5, .int 6, .int 7, .int 8, .int 9])]

theorem claim_C2_json_validity_witness :
    (jsonShaped c2ok = true ∧ json_loads c2ok = some (.obj c2okObj)
      ∧ metaOk c2okObj = true)
    ∧ ∃ v, json_loads (truncate_response c2ok 10) = some v :=
  ⟨⟨rfl, rfl, rfl⟩, claim_C2_json_validity c2ok 10 c2okObj rfl rfl ⟨_, rfl⟩ rfl⟩

/-- C1 (amended): on the JSON path (object parses, `"items"` is an array,
`"_meta"` absent or an object), the truncated response either fits the limit
or its `"items"` array has been emptied.  (The unamended claim fails when
`"_meta"` holds a non-object — the text fallback then exceeds the limit and
is not JSON at all; see the counterexample.) -/
theorem claim_C1_size_bound (content : String) (limit : Nat) (o : JObject)
    (its : List JValue)
    (hshape : jsonShaped content = true)
    (hparse : json_loads content = some (.obj o))
    (hitems : dget o "items" = some (.arr its))
    (hne : its ≠ [])
    (hover : limit < content.data.length)
    (hmeta : metaOk o = true) :
    (truncate_response content limit).data.length ≤ limit
    ∨ ∃ o3, json_loads (truncate_response content limit) = some (.obj o3)
        ∧ dget o3 "items" = some (.arr []) := by
  obtain ⟨o3, heq, _, hpost⟩ := truncJson_spec content o limit hmeta
  have htr := truncate_response_json content limit o (by omega) hshape hparse
  rw [heq] at htr
  have htr2 : truncate_response content limit
      = _serialize_json (.obj o3) (decide (6 * limit < 5 * content.data.length)) := by
    rw [htr]
  rcases hpost its hitems with hle | hempty
  · left
    rw [htr2]
    exact hle
  · right
    exact ⟨o3, by rw [htr2]; exact serialize_roundtrip _ _, hempty⟩

/-- Concrete over-limit envelope with a numeric `"_meta"` member for the C1
counterexample. -/
def c1bad : String :=
  "\x7b\x22items\x22:[1,2,3,4,5,6,7,8,9,10,11,12,13,14,15,16,17,18,19,20,21,22,23,24,25],\x22_meta\x22:0\x7d"

/-- The `"items"` of `c1bad`. -/
def c1badItems : List JValue :=
  [.int 1, .int 2, .int 3, .int 4, .int 5, .int 6, .int 7, .int 8, .int 9, .int 10,
   .int 11, .int 12, .int 13, .int 14, .int 15, .int 16, .int 17, .int 18, .int 19,
   .int 20, .int 21, .int 22, .int 23, .int 24, .int 25]

/-- The parse of `c1bad`. -/
def c1badObj : JObject := [("items", .arr c1badItems), ("_meta", .int 0)]

/-- C1 counterexample: `c1bad` satisfies every premise of the claim — it is
JSON-shaped, parses as an object with a non-empty `"items"` array, exceeds
the limit 60, and the skeleton plus one item fits in 60 characters at
either serialization density — yet the returned string is longer than 60
and is not JSON (so it has no `"items"` at all): the numeric `"_meta"`
member makes the JSON truncator raise and the text fallback exceeds the
limit by the appended warning. -/
theorem claim_C1_counterexample :
    jsonShaped c1bad = true
    ∧ json_loads c1bad = some (.obj c1badObj)
    ∧ dget c1badObj "items" = some (.arr c1badItems)
    ∧ c1badItems ≠ []
    ∧ 60 < c1bad.data.length
    ∧ (serVal false 0 (.obj (dset c1badObj "items" (.arr (c1badItems.take 1))))).length ≤ 60
    ∧ (serVal true 0 (.obj (dset c1badObj "items" (.arr (c1badItems.take 1))))).length ≤ 60
    ∧ ¬ ((truncate_response c1bad 60).data.length ≤ 60)
    ∧ json_loads (truncate_response c1bad 60) = none := by
  exact ⟨rfl, rfl, rfl, by simp [c1badItems], by decide, by decide, by decide,
    by decide, rfl⟩

/-- Concrete well-behaved over-limit envelope for the C1 witness. -/
def c1wit : String := "\x7b\x22items\x22:[11,12,13,14,15,16,17,18,19]\x7d"

/-- The parse of `c1wit`. -/
def c1witObj : JObject :=
  [("items", .arr [.int 11, .int 12, .int 13, .int 14, .int 15, .int 16, .int 17,
    .int 18, .int 19])]

/-- The `"items"` of `c1wit`. -/
def c1witItems : List JValue :=
  [.int 11, .int 12, .int 13, .int 14, .int 15, .int 16, .int 17, .int 18, .int 19]

theorem claim_C1_size_bound_witness :
    (jsonShaped c1wit = true ∧ json_loads c1wit = some (.obj c1witObj)
      ∧ dget c1witObj "items" = some (.arr c1witItems) ∧ c1witItems ≠ []
      ∧ 20 < c1wit.data.length ∧ metaOk c1witObj = true)
    ∧ ((truncate_response c1wit 20).data.length ≤ 20
       ∨ ∃ o3, json_loads (truncate_response c1wit 20) = some (.obj o3)
           ∧ dget o3 "items" = some (.arr [])) :=
  ⟨⟨rfl, rfl, rfl, by simp [c1witItems], by decide, rfl⟩,
   claim_C1_size_bound c1wit 20 c1witObj c1witItems rfl rfl rfl
     (by simp [c1witItems]) (by decide) rfl⟩

/-- C5 (amended): on the JSON path (object parses, `"_meta"` absent or an
object), whenever the returned length differs from the input length the
returned document parses and carries `_meta.truncated = true` and
`_meta.original_size` equal to the input length.  (The unamended claim
fails for plain-text input: the text fallback returns a longer string that
is not JSON and carries no metadata; see the counterexample.) -/
theorem claim_C5_metadata_on_truncation (content : String) (limit : Nat) (o : JObject)
    (hshape : jsonShaped content = true)
    (hparse : json_loads content = some (.obj o))
    (hmeta : metaOk o = true)
    (hdiff : (truncate_response content limit).data.length ≠ content.data.length) :
    ∃ o3 m, json_loads (truncate_response content limit) = some (.obj o3)
      ∧ dget o3 "_meta" = some (.obj m)
      ∧ dget m "truncated" = some (.bool true)
      ∧ dget m "original_size" = some (.int content.data.length) := by
  have hover : ¬ content.data.length ≤ limit := by
    intro hle
    apply hdiff
    have hid : truncate_response content limit = content := by
      simp only [truncate_response, if_pos hle]
    rw [hid]
  obtain ⟨o3, heq, ⟨m0, hm3⟩, _⟩ := truncJson_spec content o limit hmeta
  have htr := truncate_response_json content limit o hover hshape hparse
  rw [heq] at htr
  have htr2 : truncate_response content limit
      = _serialize_json (.obj o3) (decide (6 * limit < 5 * content.data.length)) := by
    rw [htr]
  exact ⟨o3, dictUpdate m0 (metaFields content.data.length limit),
    by rw [htr2]; exact serialize_roundtrip _ _,
    hm3, dget_update_truncated _ _ _, dget_update_original_size _ _ _⟩

/-- Concrete plain-text input for the C5 counterexample. -/
def c5bad : String := "A plain Markdown report, far longer than the limit allows."

/-- C5 counterexample: `c5bad` is plain text longer than the limit 10; the
returned string differs in length from the input, but it is not JSON at
all, so it cannot carry `_meta.truncated` or `_meta.original_size`. -/
theorem claim_C5_counterexample :
    (truncate_response c5bad 10).data.length ≠ c5bad.data.length
    ∧ json_loads (truncate_response c5bad 10) = none := by
  exact ⟨by decide, rfl⟩

/-- Concrete well-behaved over-limit envelope for the C5 witness. -/
def c5wit : String := "\x7b\x22items\x22:[21,22,23,24,25,26,27,28,29]\x7d"

/-- The parse of `c5wit`. -/
def c5witObj : JObject :=
  [("items", .arr [.int 21, .int 22, .int 23, .int 24, .int 25, .int 26, .int 27,
    .int 28, .int 29])]

theorem claim_C5_metadata_witness :
    (jsonShaped c5wit = true ∧ json_loads c5wit = some (.obj c5witObj)
      ∧ metaOk c5witObj = true
      ∧ (truncate_response c5wit 15).data.length ≠ c5wit.data.length)
    ∧ ∃ o3 m, json_loads (truncate_response c5wit 15) = some (.obj o3)
      ∧ dget o3 "_meta" = some (.obj m)
      ∧ dget m "truncated" = some (.bool true)
      ∧ dget m "original_size" = some (.int c5wit.data.length) :=
  ⟨⟨rfl, rfl, rfl, by decide⟩,
   claim_C5_metadata_on_truncation c5wit 15 c5witObj rfl rfl rfl (by decide)⟩

/-! ## Monotonicity of serialized size in the `items` prefix, and the
binary search -/

theorem serArrTail_take_mono (uc : Bool) (d : Nat) :
    ∀ (xs : List JValue) (j k : Nat), j ≤ k →
      (serArrTail uc d (xs.take j)).length ≤ (serArrTail uc d (xs.take k)).length
  | [], j, k, _ => by simp [List.take_nil]
  | _ :: _, 0, k, _ => by
      rw [List.take_zero]
      exact Nat.zero_le _
  | x :: xs, j + 1, k + 1, h => by
      show (serArrTail uc d (x :: xs.take j)).length
        ≤ (serArrTail uc d (x :: xs.take k)).length
      simp only [serArrTail, List.length_cons, List.length_append]
      have hrec := serArrTail_take_mono uc d xs j k (Nat.succ_le_succ_iff.mp h)
      omega

theorem serArr_take_mono (uc : Bool) (d : Nat) (xs : List JValue) (j k : Nat)
    (h : j ≤ k) :
    (serVal uc d (.arr (xs.take j))).length ≤ (serVal uc d (.arr (xs.take k))).length := by
  cases xs with
  | nil => simp [List.take_nil]
  | cons x xs =>
      cases k with
      | zero =>
          have hj : j = 0 := Nat.le_zero.mp h
          subst hj
          exact le_refl _
      | succ k =>
          cases j with
          | zero =>
              show (serVal uc d (.arr [])).length
                ≤ (serVal uc d (.arr (x :: xs.take k))).length
              simp only [serVal, List.length_cons, List.length_append, List.length_nil]
              omega
          | succ j =>
              show (serVal uc d (.arr (x :: xs.take j))).length
                ≤ (serVal uc d (.arr (x :: xs.take k))).length
              simp only [serVal, List.length_cons, List.length_append]
              have hrec := serArrTail_take_mono uc (d + 1) xs j k (Nat.succ_le_succ_iff.mp h)
              omega

theorem serObjTail_dset_mono (uc : Bool) (key : String) (a b : JValue)
    (hab : ∀ d', (serVal uc d' a).length ≤ (serVal uc d' b).length) :
    ∀ (d : Nat) (ms : List (String × JValue)),
      (serObjTail uc d (dset ms key a)).length ≤ (serObjTail uc d (dset ms key b)).length
  | d, [] => by
      simp only [dset, serObjTail, List.length_cons, List.length_append]
      have := hab d
      omega
  | d, (k0, v0) :: rest => by
      by_cases h0 : k0 = key
      · simp only [dset, if_pos h0, serObjTail, List.length_cons, List.length_append]
        have := hab d
        omega
      · simp only [dset, if_neg h0, serObjTail, List.length_cons, List.length_append]
        have := serObjTail_dset_mono uc key a b hab d rest
        omega

theorem serObj_dset_mono (uc : Bool) (key : String) (a b : JValue)
    (hab : ∀ d', (serVal uc d' a).length ≤ (serVal uc d' b).length) (d : Nat) :
    ∀ ms : List (String × JValue),
      (serVal uc d (.obj (dset ms key a))).length
        ≤ (serVal uc d (.obj (dset ms key b))).length
  | [] => by
      simp only [dset, serVal, List.length_cons, List.length_append]
      have := hab (d + 1)
      omega
  | (k0, v0) :: rest => by
      by_cases h0 : k0 = key
      · simp only [dset, if_pos h0, serVal, List.length_cons, List.length_append]
        have := hab (d + 1)
        omega
      · simp only [dset, if_neg h0, serVal, List.length_cons, List.length_append]
        have := serObjTail_dset_mono uc key a b hab (d + 1) rest
        omega

/-- Correctness of the binary-search loop for a downward-closed predicate:
it returns a fitting index that dominates every fitting index up to `N`. -/
theorem bsearchGo_spec (fits : Nat → Bool)
    (hmono : ∀ i j, i ≤ j → fits j = true → fits i = true) (N : Nat) :
    ∀ (fuel left right : Nat), left ≤ right → right - left ≤ fuel →
      fits left = true →
      (∀ j, fits j = true → j ≤ N → j ≤ right) →
      left ≤ bsearchGo fits fuel left right
      ∧ bsearchGo fits fuel left right ≤ right
      ∧ fits (bsearchGo fits fuel left right) = true
      ∧ (∀ j, fits j = true → j ≤ N → j ≤ bsearchGo fits fuel left right) := by
  intro fuel
  induction fuel with
  | zero =>
      intro left right hlr hfuel hl hinv
      have heq : right = left := by omega
      subst heq
      simp only [bsearchGo]
      exact ⟨le_refl _, le_refl _, hl, hinv⟩
  | succ f ih =>
      intro left right hlr hfuel hl hinv
      simp only [bsearchGo]
      by_cases hltr : left < right
      · rw [if_pos hltr]
        by_cases hf : fits ((left + right + 1) / 2) = true
        · rw [if_pos hf]
          have hm1 : left < (left + right + 1) / 2 := by omega
          have hm2 : (left + right + 1) / 2 ≤ right := by omega
          obtain ⟨h1, h2, h3, h4⟩ := ih ((left + right + 1) / 2) right hm2 (by omega) hf hinv
          exact ⟨by omega, h2, h3, h4⟩
        · rw [if_neg hf]
          have hm1 : left < (left + right + 1) / 2 := by omega
          have hm2 : (left + right + 1) / 2 ≤ right := by omega
          have hinv' : ∀ j, fits j = true → j ≤ N → j ≤ (left + right + 1) / 2 - 1 := by
            intro j hj hjN
            have hjr := hinv j hj hjN
            by_cases hjm : (left + right + 1) / 2 ≤ j
            · exact absurd (hmono _ _ hjm hj) hf
            · omega
          obtain ⟨h1, h2, h3, h4⟩ := ih left ((left + right + 1) / 2 - 1) (by omega) (by omega) hl hinv'
          exact ⟨h1, by omega, h3, h4⟩
      · rw [if_neg hltr]
        refine ⟨le_refl _, hlr, hl, fun j hj hjN => ?_⟩
        have := hinv j hj hjN
        omega

/-- C3 (amended): when the skeleton with an empty `items` array fits the
limit, `_find_max_items_for_limit` returns the maximum `k ≤ len(items)`
whose `k`-item prefix keeps the serialized object within the limit (so in
particular the `(k+1)`-item prefix, if any, does not fit).  (The unamended
claim fails when not even the empty-`items` skeleton fits: no prefix fits
at all, yet the search still returns `0`; see the counterexample.) -/
theorem claim_C3_binary_search_max (o : JObject) (its : List JValue) (limit : Nat)
    (uc : Bool)
    (h0 : (serVal uc 0 (.obj (dset o "items" (.arr (its.take 0))))).length ≤ limit) :
    _find_max_items_for_limit o its limit uc ≤ its.length
    ∧ (serVal uc 0 (.obj (dset o "items"
        (.arr (its.take (_find_max_items_for_limit o its limit uc)))))).length ≤ limit
    ∧ (∀ j, j ≤ its.length →
        (serVal uc 0 (.obj (dset o "items" (.arr (its.take j))))).length ≤ limit →
        j ≤ _find_max_items_for_limit o its limit uc) := by
  have hmono : ∀ i j, i ≤ j →
      decide ((serVal uc 0 (.obj (dset o "items" (.arr (its.take j))))).length ≤ limit)
        = true →
      decide ((serVal uc 0 (.obj (dset o "items" (.arr (its.take i))))).length ≤ limit)
        = true := by
    intro i j hij hj
    have hj' := of_decide_eq_true hj
    have hmon := serObj_dset_mono uc "items" (.arr (its.take i)) (.arr (its.take j))
      (fun d' => serArr_take_mono uc d' its i j hij) 0 o
    exact decide_eq_true (le_trans hmon hj')
  obtain ⟨h1, h2, h3, h4⟩ := bsearchGo_spec
    (fun mid => decide ((serVal uc 0 (.obj (dset o "items"
      (.arr (its.take mid))))).length ≤ limit))
    hmono its.length (its.length - 0) 0 its.length
    (Nat.zero_le _) (le_refl _) (decide_eq_true h0) (fun j _ hjN => hjN)
  exact ⟨h2, of_decide_eq_true h3, fun j hjn hfit => h4 j (decide_eq_true hfit) hjn⟩

/-- Concrete object for the C3 counterexample: `{"items": [1]}` with
limit 1. -/
def c3bado : JObject := [("items", .arr [.int 1])]

/-- C3 counterexample: with limit 1 not even the empty-`items` skeleton
fits, so no prefix length fits at all — yet the binary search returns `0`,
which therefore is not "the maximum `k` such that the `k`-item prefix
fits". -/
theorem claim_C3_counterexample :
    _find_max_items_for_limit c3bado [.int 1] 1 true = 0
    ∧ ¬ ((serVal true 0 (.obj (dset c3bado "items"
        (.arr (([.int 1] : List JValue).take
          (_find_max_items_for_limit c3bado [.int 1] 1 true)))))).length ≤ 1) := by
  exact ⟨rfl, by decide⟩

/-- The items of the C3 witness object. -/
def c3items : List JValue := [.int 1, .int 2, .int 3]

/-- Concrete object for the C3 witness: `{"items": [1, 2, 3]}` with
limit 30. -/
def c3o : JObject := [("items", .arr c3items)]

theorem claim_C3_binary_search_max_witness :
    ((serVal true 0 (.obj (dset c3o "items" (.arr (c3items.take 0))))).length ≤ 30)
    ∧ (_find_max_items_for_limit c3o c3items 30 true ≤ c3items.length
      ∧ (serVal true 0 (.obj (dset c3o "items"
          (.arr (c3items.take (_find_max_items_for_limit c3o c3items 30 true)))))).length ≤ 30
      ∧ (∀ j, j ≤ c3items.length →
          (serVal true 0 (.obj (dset c3o "items" (.arr (c3items.take j))))).length ≤ 30 →
          j ≤ _find_max_items_for_limit c3o c3items 30 true)) :=
  ⟨by decide, claim_C3_binary_search_max c3o c3items 30 true (by decide)⟩
